import Mathlib

/-!
# sac: configuration layering (`cmd/sac/main.go`)

A shallow embedding of the configuration resolver (`Config.BuildUser`), of the `config`
sub-command handler (`handleConfigCommand`), of the loaders (`Config.ParseCurrentDir`,
`Config.ParseGlobal`) and of the dispatcher (`CommandSetup`).

Modelling decisions.

* A Go `map[string]string` is either `nil` or an allocated table.  An allocated table is a
  list of entries with pairwise distinct keys (`StrMap`); the nil map is `GoMap.nil`.
  Reading, `len`, `delete` and `range` are defined on the nil map, assignment to it panics.
* Go leaves the iteration order of `range` over a map unspecified.  Every `range` statement
  takes a `RangeOrder`, which chooses the order in which the entries are visited; the
  theorems hold for every choice.
* Standard output is the list of strings written, one element per `fmt.Printf` /
  `fmt.Println` call.  A Go `error` made by `fmt.Errorf` is its message.
* `startIndex` is an index into `args` (it is produced by `range args`), hence a natural
  number far below the range of `int`; slice accesses are bounds-checked and panic when
  out of range.
* The file system and `yaml.Unmarshal` are outside the program: what the loader finds on
  disk is a `FileProbe`, the decoder is a parameter.  One run of `CommandSetup` sees one
  state of the local file.
* Two levels.  `Config`, `BuildUser` and `handleConfigCommand` work on the maps as values
  and on a natural-number index.  `ConfigRef`, `BuildUserRef` and `handleConfigCommandRef`
  work on map references in a `Heap` and on a wrapping 64-bit `int`; there two fields of
  a config can be one and the same map, and `startIndex+1` can overflow.
  `BuildUserRef_view` and `handleConfigCommandRef_sim` relate the two levels: they agree
  whenever the index is below `math.MaxInt`, and what the value level cannot show is a
  write through a map that `user` shares with `global` or `override`.
-/

namespace Sac

/-! ## Go maps -/

/-- An allocated `map[string]string`: entries with pairwise distinct keys. -/
structure StrMap where
  entries : List (String × String)
  nodupKeys : (entries.map Prod.fst).Nodup

namespace StrMap

/-- The result of `make(map[string]string)`. -/
def empty : StrMap := ⟨[], List.nodup_nil⟩

/-- The two-valued read `value, exists := m[key]`. -/
def get (m : StrMap) (key : String) : Option String :=
  m.entries.lookup key

/-- The builtin `delete(m, key)`. -/
def delete (m : StrMap) (key : String) : StrMap :=
  ⟨m.entries.filter (fun e => decide (e.1 ≠ key)),
    m.nodupKeys.sublist ((List.filter_sublist m.entries).map Prod.fst)⟩

/-- The assignment `m[key] = value` on an allocated map. -/
def set (m : StrMap) (key value : String) : StrMap :=
  ⟨(key, value) :: (m.delete key).entries,
    List.nodup_cons.2 ⟨fun h => by simp [delete] at h, (m.delete key).nodupKeys⟩⟩

/-- The builtin `len(m)`. -/
def len (m : StrMap) : Nat := m.entries.length

end StrMap

/-- A value of type `map[string]string`: the nil map or an allocated one. -/
inductive GoMap where
  | nil : GoMap
  | alloc (m : StrMap) : GoMap

/-- What a call does: it returns a value, or the goroutine panics. -/
inductive Outcome (α : Type) where
  | returned (a : α) : Outcome α
  | panicked (msg : String) : Outcome α

/-- Sequencing: a panic in the first step aborts the rest. -/
def Outcome.bind {α β : Type} (x : Outcome α) (f : α → Outcome β) : Outcome β :=
  match x with
  | .returned a => f a
  | .panicked msg => .panicked msg

namespace GoMap

/-- The entries of a map; the nil map has none. -/
def entries : GoMap → List (String × String)
  | .nil => []
  | .alloc m => m.entries

/-- The two-valued read `value, exists := m[key]`; reading the nil map finds nothing. -/
def get : GoMap → String → Option String
  | .nil, _ => none
  | .alloc m, key => m.get key

/-- The builtin `len(m)`; the nil map has length 0. -/
def len : GoMap → Nat
  | .nil => 0
  | .alloc m => m.len

/-- The builtin `delete(m, key)`; a no-op on the nil map. -/
def delete : GoMap → String → GoMap
  | .nil, _ => .nil
  | .alloc m, key => .alloc (m.delete key)

/-- The assignment `m[key] = value`; on the nil map the runtime panics. -/
def set : GoMap → String → String → Outcome GoMap
  | .nil, _, _ => .panicked "assignment to entry in nil map"
  | .alloc m, key, value => .returned (.alloc (m.set key value))

end GoMap

/-- One resolution of the unspecified iteration order of a `range` over a map: the entries
are visited once each, in the order `visit` gives. -/
structure RangeOrder where
  visit : List (String × String) → List (String × String)
  visit_perm : ∀ l, (visit l).Perm l

/-- Visit the entries in the order they are stored. -/
def RangeOrder.stored : RangeOrder := ⟨fun l => l, fun l => List.Perm.refl l⟩

/-- Visit the entries in the reverse of the order they are stored. -/
def RangeOrder.reversed : RangeOrder := ⟨fun l => l.reverse, fun l => List.reverse_perm l⟩

/-! ## Config and BuildUser -/

/-- The struct `Config`. -/
structure Config where
  user : GoMap
  global : GoMap
  override : GoMap

/-- The method `(c *Config) BuildUser()`.  The three `range` loops take their iteration
orders from `og`, `oo` and `ou`.  The third loop ranges over `c.user` while deleting the
entry it is visiting, so it visits every entry of the merged map once. -/
def BuildUser (og oo ou : RangeOrder) (c : Config) : Config :=
  let user := StrMap.empty
  let user := (og.visit c.global.entries).foldl (fun u e => u.set e.1 e.2) user
  let user := (oo.visit c.override.entries).foldl (fun u e => u.set e.1 e.2) user
  let user := (ou.visit user.entries).foldl
    (fun u e => if e.2 = "" then u.delete e.1 else u) user
  { c with user := .alloc user }

/-! ## The config sub-command handler -/

/-- The slice read `args[i]`, bounds-checked by the runtime. -/
def index (args : List String) (i : Nat) : Outcome String :=
  match args[i]? with
  | some a => .returned a
  | none => .panicked "index out of range"

/-- What a call of `handleConfigCommand` leaves behind when it returns: the config it
mutated through its pointer, the text it wrote to standard output, and the `error` it
returned (`none` for a nil error). -/
structure Handled where
  config : Config
  out : List String
  err : Option String

/-- The function `handleConfigCommand(config, args, startIndex)`.  The `range` of the
`list` branch takes its iteration order from `ol`. -/
def handleConfigCommand (ol : RangeOrder) (config : Config) (args : List String)
    (startIndex : Nat) : Outcome Handled :=
  if args.length ≤ startIndex + 1 then
    .returned ⟨config, [], some "config command requires a subcommand"⟩
  else
    (index args (startIndex + 1)).bind fun sub =>
    if sub = "set" then
      if args.length ≤ startIndex + 3 then
        .returned ⟨config, [], some "set command requires a key and value"⟩
      else
        (index args (startIndex + 2)).bind fun key =>
        (index args (startIndex + 3)).bind fun value =>
        (config.user.set key value).bind fun user =>
        .returned ⟨{ config with user := user }, [], none⟩
    else if sub = "get" then
      if args.length ≤ startIndex + 2 then
        .returned ⟨config, [], some "get command requires a key"⟩
      else
        (index args (startIndex + 2)).bind fun key =>
        match config.user.get key with
        | none => .returned ⟨config, [], some ("no value found for key '" ++ key ++ "'")⟩
        | some value => .returned ⟨config, [key ++ ": " ++ value ++ "\n"], none⟩
    else if sub = "delete" then
      if args.length ≤ startIndex + 2 then
        .returned ⟨config, [], some "delete command requires a key"⟩
      else
        (index args (startIndex + 2)).bind fun key =>
        .returned ⟨{ config with user := config.user.delete key },
          ["Deleted key '" ++ key ++ "' from user configuration.\n"], none⟩
    else if sub = "list" then
      if config.user.len = 0 then
        .returned ⟨config, ["No configuration values found.\n"], none⟩
      else
        .returned ⟨config,
          (ol.visit config.user.entries).map (fun e => e.1 ++ ": " ++ e.2 ++ "\n"), none⟩
    else
      .returned ⟨config, [], some ("unknown config subcommand: " ++ sub)⟩

/-- The `error` a call returned: `none` when it returned nil or did not return. -/
def returnedError : Outcome Handled → Option String
  | .returned r => r.err
  | .panicked _ => none

/-! ## The error conditions

The handler tells its failures apart by message only; the conditions below name the
messages. -/

/-- The message of `MissingSubcommand`. -/
def errMissingSubcommand : String := "config command requires a subcommand"

/-- The messages of `MissingArguments`, one per sub-command that takes arguments. -/
def errMissingArguments : List String :=
  ["set command requires a key and value", "get command requires a key",
    "delete command requires a key"]

/-- The message of `KeyNotFound` for `key`. -/
def errKeyNotFound (key : String) : String := "no value found for key '" ++ key ++ "'"

/-- The message of `UnknownSubcommand` for the token `tok`. -/
def errUnknownSubcommand (tok : String) : String := "unknown config subcommand: " ++ tok

/-! ## The loaders

The file system and the YAML decoder are outside the program.  A `FileProbe` is what the
calls `os.Getwd` / `os.UserHomeDir`, `os.Stat`, `os.Open` and `io.ReadAll` find for
`<directory>/.sac.yaml`; the decoder `yaml.Unmarshal(content, &m)` is a parameter that
gives the map it leaves in `m`, or `none` when it returns an error. -/

/-- What the loader finds when it looks for `<directory>/.sac.yaml`. -/
inductive FileProbe where
  | noDirectory : FileProbe
  | absent : FileProbe
  | unopenable : FileProbe
  | unreadable : FileProbe
  | content (bytes : String) : FileProbe

/-- The decoder `yaml.Unmarshal(content, &m)`: from the content and the map `m` holds, the
map it leaves in `m`, or `none` for an error. -/
abbrev Unmarshal := String → GoMap → Option GoMap

/-- The method `(c *Config) ParseCurrentDir()`: a failing `os.Getwd`, `os.Open`,
`io.ReadAll` or `yaml.Unmarshal` panics; when `os.Stat` reports an error the body of the
`if` is skipped. -/
def ParseCurrentDir (yaml : Unmarshal) (cwd : FileProbe) (c : Config) : Outcome Config :=
  match cwd with
  | .noDirectory => .panicked "os.Getwd failed"
  | .absent => .returned c
  | .unopenable => .panicked "os.Open failed"
  | .unreadable => .panicked "io.ReadAll failed"
  | .content bytes =>
    match yaml bytes c.override with
    | none => .panicked "yaml.Unmarshal failed"
    | some m => .returned { c with override := m }

/-- The method `(c *Config) ParseGlobal()`, the same steps on the home directory and the
`global` map. -/
def ParseGlobal (yaml : Unmarshal) (home : FileProbe) (c : Config) : Outcome Config :=
  match home with
  | .noDirectory => .panicked "os.UserHomeDir failed"
  | .absent => .returned c
  | .unopenable => .panicked "os.Open failed"
  | .unreadable => .panicked "io.ReadAll failed"
  | .content bytes =>
    match yaml bytes c.global with
    | none => .panicked "yaml.Unmarshal failed"
    | some m => .returned { c with global := m }

/-! ## CommandSetup -/

/-- The struct `User`. -/
structure User where
  name : String
  email : String
  racks : GoMap
  bags : GoMap

/-- The single-valued read `m[key]`: the zero value `""` when the key is absent. -/
def GoMap.read (m : GoMap) (key : String) : String := (m.get key).getD ""

/-- The iteration orders one run of `CommandSetup` takes: for the `range` over
`config.user` that fills `racks` and `bags`, for the three loops of `BuildUser`, and for
the `range` of `config list`. -/
structure Sched where
  setup : RangeOrder
  global : RangeOrder
  override : RangeOrder
  user : RangeOrder
  list : RangeOrder

/-- Every `range` visits the entries as they are stored. -/
def Sched.stored : Sched := ⟨.stored, .stored, .stored, .stored, .stored⟩

/-- The first part of `CommandSetup` (lines 163-185): the `User` built from
`config.user`, the values under `racks` and `bags` being decoded into fresh maps; a
decoding error panics. -/
def setupUser (yaml : Unmarshal) (ord : RangeOrder) (config : Config) : Outcome User :=
  (ord.visit config.user.entries).foldl
    (fun acc e => acc.bind fun user =>
      if e.1 = "racks" then
        match yaml e.2 (.alloc .empty) with
        | none => .panicked "yaml.Unmarshal failed"
        | some m => .returned { user with racks := m }
      else if e.1 = "bags" then
        match yaml e.2 (.alloc .empty) with
        | none => .panicked "yaml.Unmarshal failed"
        | some m => .returned { user with bags := m }
      else .returned user)
    (.returned ⟨config.user.read "name", config.user.read "email",
      .alloc .empty, .alloc .empty⟩)

/-- What a run of `CommandSetup` leaves behind when it returns: the config and the text
written to standard output. -/
structure Ran where
  config : Config
  out : List String

/-- The `config` case of the dispatch loop after the handler returned: the error, if any,
is printed as `Error: <message>`, then `CommandSetup` returns. -/
def report (r : Handled) : Ran :=
  ⟨r.config, r.out ++ match r.err with
    | some e => ["Error: " ++ e ++ "\n"]
    | none => []⟩

/-- The dispatch loop of `CommandSetup` (lines 187-201), `for i, arg := range args`, from
the token at index `i` on; `rest` is what is left of `args` from there. -/
def dispatch (yaml : Unmarshal) (cwd : FileProbe) (s : Sched) (args : List String) :
    Nat → List String → Config → Outcome Ran
  | _, [], config => .returned ⟨config, []⟩
  | i, arg :: rest, config =>
    if arg = "init" then
      (ParseCurrentDir yaml cwd config).bind fun c1 =>
      dispatch yaml cwd s args (i + 1) rest (BuildUser s.global s.override s.user c1)
    else if arg = "config" then
      (handleConfigCommand s.list config args i).bind fun r => .returned (report r)
    else
      dispatch yaml cwd s args (i + 1) rest config

/-- The function `CommandSetup(config, args)`. -/
def CommandSetup (yaml : Unmarshal) (cwd : FileProbe) (s : Sched) (config : Config)
    (args : List String) : Outcome Ran :=
  (setupUser yaml s.setup config).bind fun _ => dispatch yaml cwd s args 0 args config

/-! ## The init step, as the specification words it -/

/-- The largest `int`, `math.MaxInt` on a 64-bit target. -/
def maxInt : Int := 9223372036854775807

/-- The `int` a sum leaves: two's-complement wraparound to 64 bits. -/
def wrapInt (z : Int) : Int :=
  (z + 9223372036854775808) % 18446744073709551616 - 9223372036854775808

/-- The slice read `args[i]` for an `int` index: a negative index is out of range. -/
def indexInt (args : List String) (i : Int) : Outcome String :=
  if 0 ≤ i then index args i.toNat else .panicked "index out of range"

/-- The tables of the allocated maps; the address of a table is its position. -/
structure Heap where
  tables : List StrMap

/-- A value of type `map[string]string` as the machine holds it: nil or an address. -/
abbrev MapRef := Option Nat

namespace Heap

/-- The table at an address. -/
def get (h : Heap) (a : Nat) : StrMap := h.tables.getD a .empty

/-- The heap with the table at address `a` replaced. -/
def put (h : Heap) (a : Nat) (m : StrMap) : Heap := ⟨h.tables.set a m⟩

/-- The map a reference denotes. -/
def load (h : Heap) : MapRef → GoMap
  | none => .nil
  | some a => .alloc (h.get a)

/-- The assignment `m[key] = value` through a reference; on nil the runtime panics. -/
def assign (h : Heap) (r : MapRef) (key value : String) : Outcome Heap :=
  match r with
  | none => .panicked "assignment to entry in nil map"
  | some a => .returned (h.put a ((h.get a).set key value))

/-- The builtin `delete(m, key)` through a reference; a no-op on nil. -/
def remove (h : Heap) (r : MapRef) (key : String) : Heap :=
  match r with
  | none => h
  | some a => h.put a ((h.get a).delete key)

end Heap

/-- The struct `Config` as the machine holds it: three map references. -/
structure ConfigRef where
  user : MapRef
  global : MapRef
  override : MapRef

/-- The maps a `ConfigRef` denotes in a heap. -/
def ConfigRef.view (c : ConfigRef) (h : Heap) : Config :=
  ⟨h.load c.user, h.load c.global, h.load c.override⟩

/-- The method `(c *Config) BuildUser()` on references: `make` allocates a new table, the
field `c.user` is set to its address, and the three loops write that table. -/
def BuildUserRef (og oo ou : RangeOrder) (h : Heap) (c : ConfigRef) : Heap × ConfigRef :=
  let a := h.tables.length
  let h : Heap := ⟨h.tables ++ [StrMap.empty]⟩
  let h := (og.visit (h.load c.global).entries).foldl
    (fun h e => h.put a ((h.get a).set e.1 e.2)) h
  let h := (oo.visit (h.load c.override).entries).foldl
    (fun h e => h.put a ((h.get a).set e.1 e.2)) h
  let h := (ou.visit (h.get a).entries).foldl
    (fun h e => if e.2 = "" then h.put a ((h.get a).delete e.1) else h) h
  (h, { c with user := some a })

/-- What a call of the handler leaves behind on the machine: the heap (the fields of the
config are not assigned), the text written, the `error` returned. -/
structure HandledRef where
  heap : Heap
  out : List String
  err : Option String

/-- The function `handleConfigCommand(config, args, startIndex)` on references, with
`startIndex` an `int`: every `startIndex+n` wraps, and every `args[...]` is checked. -/
def handleConfigCommandRef (ol : RangeOrder) (h : Heap) (config : ConfigRef)
    (args : List String) (startIndex : Int) : Outcome HandledRef :=
  if (args.length : Int) ≤ wrapInt (startIndex + 1) then
    .returned ⟨h, [], some "config command requires a subcommand"⟩
  else
    (indexInt args (wrapInt (startIndex + 1))).bind fun sub =>
    if sub = "set" then
      if (args.length : Int) ≤ wrapInt (startIndex + 3) then
        .returned ⟨h, [], some "set command requires a key and value"⟩
      else
        (indexInt args (wrapInt (startIndex + 2))).bind fun key =>
        (indexInt args (wrapInt (startIndex + 3))).bind fun value =>
        (h.assign config.user key value).bind fun h1 =>
        .returned ⟨h1, [], none⟩
    else if sub = "get" then
      if (args.length : Int) ≤ wrapInt (startIndex + 2) then
        .returned ⟨h, [], some "get command requires a key"⟩
      else
        (indexInt args (wrapInt (startIndex + 2))).bind fun key =>
        match (h.load config.user).get key with
        | none => .returned ⟨h, [], some ("no value found for key '" ++ key ++ "'")⟩
        | some value => .returned ⟨h, [key ++ ": " ++ value ++ "\n"], none⟩
    else if sub = "delete" then
      if (args.length : Int) ≤ wrapInt (startIndex + 2) then
        .returned ⟨h, [], some "delete command requires a key"⟩
      else
        (indexInt args (wrapInt (startIndex + 2))).bind fun key =>
        .returned ⟨h.remove config.user key,
          ["Deleted key '" ++ key ++ "' from user configuration.\n"], none⟩
    else if sub = "list" then
      if (h.load config.user).len = 0 then
        .returned ⟨h, ["No configuration values found.\n"], none⟩
      else
        .returned ⟨h,
          (ol.visit (h.load config.user).entries).map
            (fun e => e.1 ++ ": " ++ e.2 ++ "\n"), none⟩
    else
      .returned ⟨h, [], some ("unknown config subcommand: " ++ sub)⟩

/-- The heap after the map a reference denotes has become `g`: the table at the address
is replaced; nothing to do for nil. -/
def Heap.store (h : Heap) (r : MapRef) (g : GoMap) : Heap :=
  match r, g with
  | some a, .alloc m => h.put a m
  | _, _ => h

/-! ## Concrete configurations -/

/-- The global mapping `{name: alice, editor: vim}`. -/
def scenarioGlobal : StrMap := ⟨[("name", "alice"), ("editor", "vim")], by decide⟩

/-- The override mapping `{editor: ""}`. -/
def scenarioOverride : StrMap := ⟨[("editor", "")], by decide⟩

/-- A config that has not been resolved yet, with the scenario's global and override. -/
def scenarioConfig : Config := ⟨.nil, .alloc scenarioGlobal, .alloc scenarioOverride⟩

/-- The global mapping `{name: alice, editor: ""}`. -/
def blankGlobal : StrMap := ⟨[("name", "alice"), ("editor", "")], by decide⟩

/-- The override mapping `{theme: dark}`. -/
def themeOverride : StrMap := ⟨[("theme", "dark")], by decide⟩

/-- A config whose global and override have no key in common. -/
def disjointConfig : Config := ⟨.nil, .alloc blankGlobal, .alloc themeOverride⟩

/-- The user mapping `{x: 1}`. -/
def userX : StrMap := ⟨[("x", "1")], by decide⟩

/-- A config on which nothing has run: the zero value `Config{}`. -/
def zeroConfig : Config := ⟨.nil, .nil, .nil⟩

/-- A decoder that rejects every document. -/
def yamlReject : Unmarshal := fun _ _ => none

/-- The mapping `{name: alice}`. -/
def aliceMap : StrMap := ⟨[("name", "alice")], by decide⟩

/-- A heap with the one table `{x: 1}`, at address 0. -/
def heapX : Heap := ⟨[userX]⟩

/-- A config whose `user` is the table at address 0, `global` and `override` nil. -/
def builtRef : ConfigRef := ⟨some 0, none, none⟩

/-- A config whose `user` and `global` are the same map, the table at address 0. -/
def aliasedRef : ConfigRef := ⟨some 0, some 0, none⟩

/-- A heap with the tables `{name: alice, editor: vim}` at 0, `{editor: ""}` at 1 and
`{x: 1}` at 2. -/
def heapScenario : Heap := ⟨[scenarioGlobal, scenarioOverride, userX]⟩

/-- A config with `user` at 2, `global` at 0 and `override` at 1. -/
def scenarioRef : ConfigRef := ⟨some 2, some 0, some 1⟩

/-! ## Lemmas on maps -/

theorem lookup_cons_eq (a b k : String) (t : List (String × String)) :
    ((a, b) :: t).lookup k = if k = a then some b else t.lookup k := by
  by_cases hk : k = a
  · subst hk
    simp [List.lookup_cons]
  · have : (k == a) = false := by simpa using hk
    simp only [List.lookup_cons, this, if_neg hk]

theorem lookup_filter_ne (l : List (String × String)) (key k : String) :
    (l.filter (fun e => decide (e.1 ≠ key))).lookup k
      = if k = key then none else l.lookup k := by
  induction l with
  | nil => simp
  | cons e t ih =>
    obtain ⟨a, b⟩ := e
    by_cases ha : a = key
    · have hd : decide ((a, b).1 ≠ key) = false := by simpa using ha
      rw [List.filter_cons_of_neg (p := fun e : String × String => decide (e.1 ≠ key))
        (by simp [hd]), ih, lookup_cons_eq]
      by_cases hk : k = key
      · simp only [if_pos hk]
      · simp only [if_neg hk, if_neg (fun h : k = a => hk (h.trans ha))]
    · have hd : decide ((a, b).1 ≠ key) = true := by simpa using ha
      rw [List.filter_cons_of_pos (p := fun e : String × String => decide (e.1 ≠ key)) hd,
        lookup_cons_eq, ih, lookup_cons_eq]
      by_cases hk : k = a
      · simp only [if_pos hk, if_neg (fun h : k = key => ha (hk.symm.trans h))]
      · simp only [if_neg hk]

theorem lookup_eq_some_iff_mem (l : List (String × String)) (h : (l.map Prod.fst).Nodup)
    (k v : String) : l.lookup k = some v ↔ (k, v) ∈ l := by
  induction l with
  | nil => simp
  | cons e t ih =>
    obtain ⟨a, b⟩ := e
    rw [List.map_cons, List.nodup_cons] at h
    rw [lookup_cons_eq]
    by_cases hk : k = a
    · subst hk
      have hnot : (k, v) ∉ t := fun hm => h.1 (List.mem_map.2 ⟨(k, v), hm, rfl⟩)
      simp only [if_true, List.mem_cons, hnot, or_false, Prod.mk.injEq, true_and,
        Option.some.injEq]
      exact eq_comm
    · rw [if_neg hk, ih h.2]
      simp only [List.mem_cons, Prod.mk.injEq, hk, false_and, false_or]

theorem lookup_eq_none_iff (l : List (String × String)) (k : String) :
    l.lookup k = none ↔ k ∉ l.map Prod.fst := by
  induction l with
  | nil => simp
  | cons e t ih =>
    obtain ⟨a, b⟩ := e
    by_cases hk : k = a
    · subst hk
      simp [List.lookup_cons]
    · have : (k == a) = false := by simpa using hk
      simp only [List.lookup_cons, this, ih, List.map_cons, List.mem_cons, hk, false_or]

theorem lookup_perm {l₁ l₂ : List (String × String)} (hp : l₁.Perm l₂)
    (h : (l₁.map Prod.fst).Nodup) (k : String) : l₁.lookup k = l₂.lookup k := by
  have h₂ : (l₂.map Prod.fst).Nodup := (hp.map Prod.fst).nodup_iff.1 h
  apply Option.ext
  intro v
  simp only [Option.mem_def]
  rw [lookup_eq_some_iff_mem l₁ h, lookup_eq_some_iff_mem l₂ h₂, hp.mem_iff]

namespace StrMap

theorem ext {m₁ m₂ : StrMap} (h : m₁.entries = m₂.entries) : m₁ = m₂ := by
  cases m₁; cases m₂; cases h; rfl

theorem get_delete (m : StrMap) (key k : String) :
    (m.delete key).get k = if k = key then none else m.get k :=
  lookup_filter_ne m.entries key k

theorem get_set (m : StrMap) (key value k : String) :
    (m.set key value).get k = if k = key then some value else m.get k := by
  show ((key, value) :: (m.delete key).entries).lookup k = _
  rw [lookup_cons_eq]
  by_cases hk : k = key
  · simp only [if_pos hk]
  · simp only [if_neg hk]
    exact (get_delete m key k).trans (if_neg hk)

theorem get_eq_some_iff (m : StrMap) (k v : String) :
    m.get k = some v ↔ (k, v) ∈ m.entries :=
  lookup_eq_some_iff_mem m.entries m.nodupKeys k v

theorem get_empty (k : String) : empty.get k = none := rfl

end StrMap

/-! ## The loops of BuildUser -/

theorem get_foldl_set (l : List (String × String)) (h : (l.map Prod.fst).Nodup)
    (m : StrMap) (k : String) :
    (l.foldl (fun u e => u.set e.1 e.2) m).get k = (l.lookup k).or (m.get k) := by
  induction l generalizing m with
  | nil => rfl
  | cons e t ih =>
    obtain ⟨a, b⟩ := e
    rw [List.map_cons, List.nodup_cons] at h
    rw [List.foldl_cons, ih h.2, lookup_cons_eq, StrMap.get_set]
    by_cases hk : k = a
    · subst hk
      rw [if_pos rfl, if_pos rfl, (lookup_eq_none_iff t k).2 h.1]
      rfl
    · rw [if_neg hk, if_neg hk]

theorem get_foldl_prune (l : List (String × String)) (m : StrMap) (k : String) :
    (l.foldl (fun u e => if e.2 = "" then u.delete e.1 else u) m).get k
      = if (k, "") ∈ l then none else m.get k := by
  induction l generalizing m with
  | nil => simp
  | cons e t ih =>
    obtain ⟨a, b⟩ := e
    rw [List.foldl_cons, ih]
    by_cases ht : (k, "") ∈ t
    · rw [if_pos ht, if_pos (List.mem_cons_of_mem _ ht)]
    · rw [if_neg ht]
      by_cases hb : b = ""
      · subst hb
        rw [if_pos rfl, StrMap.get_delete]
        by_cases hk : k = a
        · subst hk
          rw [if_pos rfl, if_pos (List.mem_cons_self _ _)]
        · rw [if_neg hk, if_neg]
          intro hm
          rcases List.mem_cons.1 hm with h | h
          · exact hk (Prod.mk.inj h).1
          · exact ht h
      · rw [if_neg hb, if_neg]
        intro hm
        rcases List.mem_cons.1 hm with h | h
        · exact hb (Prod.mk.inj h).2.symm
        · exact ht h

theorem GoMap.nodupKeys (g : GoMap) : (g.entries.map Prod.fst).Nodup := by
  cases g with
  | nil => exact List.nodup_nil
  | alloc m => exact m.nodupKeys

theorem GoMap.get_eq_lookup (g : GoMap) (k : String) : g.get k = g.entries.lookup k := by
  cases g <;> rfl

theorem get_range_set (o : RangeOrder) (g : GoMap) (m : StrMap) (k : String) :
    ((o.visit g.entries).foldl (fun u e => u.set e.1 e.2) m).get k
      = (g.get k).or (m.get k) := by
  have hp := o.visit_perm g.entries
  have hn : ((o.visit g.entries).map Prod.fst).Nodup :=
    (hp.map Prod.fst).nodup_iff.2 g.nodupKeys
  rw [get_foldl_set _ hn, lookup_perm hp hn, GoMap.get_eq_lookup]

theorem get_range_prune (o : RangeOrder) (m : StrMap) (k : String) :
    ((o.visit m.entries).foldl (fun u e => if e.2 = "" then u.delete e.1 else u) m).get k
      = if m.get k = some "" then none else m.get k := by
  rw [get_foldl_prune]
  have : (k, "") ∈ o.visit m.entries ↔ m.get k = some "" := by
    rw [(o.visit_perm m.entries).mem_iff, StrMap.get_eq_some_iff]
  by_cases h : m.get k = some ""
  · rw [if_pos h, if_pos (this.2 h)]
  · rw [if_neg h, if_neg (fun hm => h (this.1 hm))]

/-- The value `BuildUser` leaves under every key: the override's value if the override has
the key and else the global's, dropped when it is the empty string. -/
theorem BuildUser_get (og oo ou : RangeOrder) (c : Config) (k : String) :
    (BuildUser og oo ou c).user.get k
      = if (c.override.get k).or (c.global.get k) = some "" then none
        else (c.override.get k).or (c.global.get k) := by
  show StrMap.get _ k = _
  rw [get_range_prune, get_range_set, get_range_set, StrMap.get_empty]
  cases c.global.get k <;> rfl

theorem BuildUser_get_eq_some (og oo ou : RangeOrder) (c : Config) (k v : String) :
    (BuildUser og oo ou c).user.get k = some v ↔
      v ≠ "" ∧ (c.override.get k = some v ∨
        (c.override.get k = none ∧ c.global.get k = some v)) := by
  rw [BuildUser_get]
  by_cases h : (c.override.get k).or (c.global.get k) = some ""
  · rw [if_pos h]
    constructor
    · intro h'
      cases h'
    · rintro ⟨hv, h'⟩
      rw [← Option.or_eq_some, h] at h'
      exact absurd (Option.some.inj h').symm hv
  · rw [if_neg h, Option.or_eq_some]
    constructor
    · intro h'
      refine ⟨?_, h'⟩
      rintro rfl
      exact h (Option.or_eq_some.2 h')
    · exact fun h' => h'.2

theorem eq_singleton_of_mem_iff {l : List (String × String)} (hn : l.Nodup)
    (x : String × String) (h : ∀ e, e ∈ l ↔ e = x) : l = [x] :=
  List.perm_singleton.1
    ((List.perm_ext_iff_of_nodup hn (List.nodup_singleton x)).2
      (fun e => by rw [h e, List.mem_singleton]))

theorem GoMap.mem_entries_iff (g : GoMap) (k v : String) :
    (k, v) ∈ g.entries ↔ g.get k = some v := by
  rw [g.get_eq_lookup, lookup_eq_some_iff_mem _ g.nodupKeys]

theorem GoMap.nodup_entries (g : GoMap) : g.entries.Nodup :=
  List.Nodup.of_map Prod.fst g.nodupKeys

theorem GoMap.perm_of_get_eq (g₁ g₂ : GoMap) (h : ∀ k, g₁.get k = g₂.get k) :
    g₁.entries.Perm g₂.entries :=
  (List.perm_ext_iff_of_nodup g₁.nodup_entries g₂.nodup_entries).2
    (fun e => by rw [g₁.mem_entries_iff, g₂.mem_entries_iff, h])

theorem GoMap.get_eq_none_iff (g : GoMap) (k : String) :
    g.get k = none ↔ k ∉ g.entries.map Prod.fst := by
  rw [g.get_eq_lookup, lookup_eq_none_iff]

/-! ## Resolution: `BuildUser` -/

/-- C1: `BuildUser` is the override-wins merge followed by empty-value pruning.  Whatever
the iteration orders, the resolved `user` has `k ↦ v` exactly when `v` is non-empty and
either the override maps `k` to `v`, or the override has no `k` and the global maps `k`
to `v`.  With global `{name: alice, editor: vim}` and override `{editor: ""}` the resolved
`user` is `{name: alice}`. -/
theorem BuildUser_merge_then_prune :
    (∀ (og oo ou : RangeOrder) (c : Config) (k v : String),
      (BuildUser og oo ou c).user.get k = some v ↔
        v ≠ "" ∧ (c.override.get k = some v ∨
          (c.override.get k = none ∧ c.global.get k = some v))) ∧
    (∀ (og oo ou : RangeOrder) (u : GoMap),
      (BuildUser og oo ou ⟨u, .alloc scenarioGlobal, .alloc scenarioOverride⟩).user.entries
        = [("name", "alice")]) := by
  refine ⟨BuildUser_get_eq_some, ?_⟩
  intro og oo ou u
  apply eq_singleton_of_mem_iff (GoMap.nodup_entries _)
  rintro ⟨k, v⟩
  rw [GoMap.mem_entries_iff, BuildUser_get_eq_some]
  simp only [GoMap.get, StrMap.get, scenarioGlobal, scenarioOverride, lookup_cons_eq,
    List.lookup_nil, Prod.mk.injEq]
  by_cases h1 : k = "editor"
  · subst h1
    simp only [if_true]
    constructor
    · rintro ⟨hv, h | h⟩
      · exact absurd (Option.some.inj h).symm hv
      · exact absurd h.1 (by simp)
    · rintro ⟨h, _⟩
      exact absurd h (by decide)
  · simp only [if_neg h1]
    by_cases h2 : k = "name"
    · subst h2
      simp only [if_true, Option.some.injEq, true_and, false_or]
      constructor
      · rintro ⟨_, h | h⟩
        · cases h
        · exact h.symm
      · rintro rfl
        exact ⟨by decide, Or.inr rfl⟩
    · simp [h2]

/-- C2: pruning invariant.  After `BuildUser`, whatever the iteration orders, no key of
`user` is mapped to the empty string. -/
theorem BuildUser_no_empty_value (og oo ou : RangeOrder) (c : Config) (k : String) :
    (BuildUser og oo ou c).user.get k ≠ some "" := by
  intro h
  exact ((BuildUser_get_eq_some og oo ou c k "").1 h).1 rfl

/-- C3, as stated, fails: with global `{name: alice, editor: vim}` and override
`{editor: ""}` the key `editor` is in both with differing values, and the resolved `user`
does not hold it. -/
theorem BuildUser_override_precedence_counterexample :
    scenarioConfig.global.get "editor" = some "vim" ∧
    scenarioConfig.override.get "editor" = some "" ∧
    "vim" ≠ "" ∧
    (BuildUser .stored .stored .stored scenarioConfig).user.get "editor" = none := by
  decide

/-- C3, amended: override precedence.  For a key `k` that the global maps to `a` and the
override to a different `b`: when `b` is non-empty the resolved `user` holds `k` with the
override's value `b`; when `b` is empty the resolved `user` does not hold `k`. -/
theorem BuildUser_override_precedence (og oo ou : RangeOrder) (c : Config)
    (k a b : String) (_hg : c.global.get k = some a) (ho : c.override.get k = some b)
    (_hne : a ≠ b) :
    (b ≠ "" → (BuildUser og oo ou c).user.get k = some b) ∧
    (b = "" → (BuildUser og oo ou c).user.get k = none) := by
  constructor
  · intro hb
    exact (BuildUser_get_eq_some og oo ou c k b).2 ⟨hb, Or.inl ho⟩
  · intro hb
    rw [BuildUser_get, ho, hb]
    rfl

/-- C3, amended, at global `{name: alice, editor: vim}`, override `{editor: ""}`, key
`editor`. -/
theorem BuildUser_override_precedence_witness :
    scenarioConfig.global.get "editor" = some "vim" ∧
    scenarioConfig.override.get "editor" = some "" ∧
    "vim" ≠ "" ∧
    (("" : String) ≠ "" →
      (BuildUser .stored .reversed .stored scenarioConfig).user.get "editor" = some "") ∧
    (("" : String) = "" →
      (BuildUser .stored .reversed .stored scenarioConfig).user.get "editor" = none) :=
  ⟨by decide, by decide, by decide,
    BuildUser_override_precedence .stored .reversed .stored scenarioConfig "editor" "vim" ""
      (by decide) (by decide) (by decide)⟩

/-- C4, as stated, fails: global `{name: alice, editor: ""}` and override `{theme: dark}`
have no key in common, and the entry `editor ↦ ""` of the global is not in the resolved
`user`. -/
theorem BuildUser_disjoint_union_counterexample :
    (∀ k ∈ disjointConfig.global.entries.map Prod.fst,
      k ∉ disjointConfig.override.entries.map Prod.fst) ∧
    ("editor", "") ∈ disjointConfig.global.entries ∧
    ("editor", "") ∉ (BuildUser .stored .stored .stored disjointConfig).user.entries := by
  decide

/-- C4, amended: disjoint union.  When global and override have no key in common,
`BuildUser` yields, whatever the iteration orders, exactly the entries of the global and
of the override whose value is non-empty: every such entry once, and nothing else. -/
theorem BuildUser_disjoint_union (og oo ou : RangeOrder) (c : Config)
    (hd : ∀ k ∈ c.global.entries.map Prod.fst, k ∉ c.override.entries.map Prod.fst) :
    (BuildUser og oo ou c).user.entries.Perm
      ((c.global.entries ++ c.override.entries).filter (fun e => decide (e.2 ≠ ""))) := by
  have hdis : ∀ k v, c.global.get k = some v → c.override.get k = none := by
    intro k v h
    rw [GoMap.get_eq_none_iff]
    exact hd k (List.mem_map.2 ⟨(k, v), (c.global.mem_entries_iff k v).2 h, rfl⟩)
  have hnd : (c.global.entries ++ c.override.entries).Nodup := by
    refine List.Nodup.append c.global.nodup_entries c.override.nodup_entries ?_
    rintro ⟨k, v⟩ h₁ h₂
    have h := hdis k v ((c.global.mem_entries_iff k v).1 h₁)
    rw [(c.override.mem_entries_iff k v).1 h₂] at h
    cases h
  rw [List.perm_ext_iff_of_nodup (GoMap.nodup_entries _) (hnd.filter _)]
  rintro ⟨k, v⟩
  rw [GoMap.mem_entries_iff, BuildUser_get_eq_some, List.mem_filter, List.mem_append,
    GoMap.mem_entries_iff, GoMap.mem_entries_iff]
  simp only [decide_eq_true_eq]
  constructor
  · rintro ⟨hv, h | h⟩
    · exact ⟨Or.inr h, hv⟩
    · exact ⟨Or.inl h.2, hv⟩
  · rintro ⟨h | h, hv⟩
    · exact ⟨hv, Or.inr ⟨hdis k v h, h⟩⟩
    · exact ⟨hv, Or.inl h⟩

/-- C4, amended, at global `{name: alice, editor: ""}`, override `{theme: dark}`. -/
theorem BuildUser_disjoint_union_witness :
    (∀ k ∈ disjointConfig.global.entries.map Prod.fst,
      k ∉ disjointConfig.override.entries.map Prod.fst) ∧
    (BuildUser .stored .stored .reversed disjointConfig).user.entries.Perm
      ((disjointConfig.global.entries ++ disjointConfig.override.entries).filter
        (fun e => decide (e.2 ≠ ""))) :=
  ⟨by decide, BuildUser_disjoint_union .stored .stored .reversed disjointConfig (by decide)⟩

/-- C5: `BuildUser` is idempotent.  Run again with the same iteration orders it returns
the very same `Config`; run again with any other iteration orders it leaves `global` and
`override` as they are and a `user` with the same entries (the same value, or absence,
under every key). -/
theorem BuildUser_idempotent (og oo ou og2 oo2 ou2 : RangeOrder) (c : Config) :
    BuildUser og oo ou (BuildUser og oo ou c) = BuildUser og oo ou c ∧
    (BuildUser og2 oo2 ou2 (BuildUser og oo ou c)).global = (BuildUser og oo ou c).global ∧
    (BuildUser og2 oo2 ou2 (BuildUser og oo ou c)).override
      = (BuildUser og oo ou c).override ∧
    (∀ k, (BuildUser og2 oo2 ou2 (BuildUser og oo ou c)).user.get k
      = (BuildUser og oo ou c).user.get k) ∧
    (BuildUser og2 oo2 ou2 (BuildUser og oo ou c)).user.entries.Perm
      (BuildUser og oo ou c).user.entries := by
  have hget : ∀ k, (BuildUser og2 oo2 ou2 (BuildUser og oo ou c)).user.get k
      = (BuildUser og oo ou c).user.get k := by
    intro k
    rw [BuildUser_get, BuildUser_get]
    rfl
  exact ⟨rfl, rfl, rfl, hget, GoMap.perm_of_get_eq _ _ hget⟩

/-! ## The handler, branch by branch -/

theorem index_of_getElem? {args : List String} {i : Nat} {a : String}
    (h : args[i]? = some a) : index args i = .returned a := by
  simp only [index, h]

theorem not_le_of_getElem? {args : List String} {i : Nat} {a : String}
    (h : args[i]? = some a) : ¬ args.length ≤ i := by
  intro hle
  rw [List.getElem?_eq_none hle] at h
  cases h

theorem handle_set (ol : RangeOrder) (c : Config) (args : List String) (i : Nat)
    (k v : String) (h1 : args[i + 1]? = some "set") (h2 : args[i + 2]? = some k)
    (h3 : args[i + 3]? = some v) :
    handleConfigCommand ol c args i
      = (c.user.set k v).bind fun user => .returned ⟨{ c with user := user }, [], none⟩ := by
  unfold handleConfigCommand
  rw [if_neg (not_le_of_getElem? h1), index_of_getElem? h1]
  simp only [Outcome.bind, if_true, if_neg (not_le_of_getElem? h3), index_of_getElem? h2,
    index_of_getElem? h3]

theorem handle_get (ol : RangeOrder) (c : Config) (args : List String) (i : Nat)
    (k : String) (h1 : args[i + 1]? = some "get") (h2 : args[i + 2]? = some k) :
    handleConfigCommand ol c args i
      = match c.user.get k with
        | none => .returned ⟨c, [], some ("no value found for key '" ++ k ++ "'")⟩
        | some value => .returned ⟨c, [k ++ ": " ++ value ++ "\n"], none⟩ := by
  unfold handleConfigCommand
  rw [if_neg (not_le_of_getElem? h1), index_of_getElem? h1]
  simp only [Outcome.bind, if_neg (show ¬ ("get" = "set") by decide), if_true,
    if_neg (not_le_of_getElem? h2), index_of_getElem? h2]

theorem handle_delete (ol : RangeOrder) (c : Config) (args : List String) (i : Nat)
    (k : String) (h1 : args[i + 1]? = some "delete") (h2 : args[i + 2]? = some k) :
    handleConfigCommand ol c args i
      = .returned ⟨{ c with user := c.user.delete k },
          ["Deleted key '" ++ k ++ "' from user configuration.\n"], none⟩ := by
  unfold handleConfigCommand
  rw [if_neg (not_le_of_getElem? h1), index_of_getElem? h1]
  simp only [Outcome.bind, if_neg (show ¬ ("delete" = "set") by decide),
    if_neg (show ¬ ("delete" = "get") by decide), if_true,
    if_neg (not_le_of_getElem? h2), index_of_getElem? h2]

theorem handle_list (ol : RangeOrder) (c : Config) (args : List String) (i : Nat)
    (h1 : args[i + 1]? = some "list") :
    handleConfigCommand ol c args i
      = if c.user.len = 0 then
          .returned ⟨c, ["No configuration values found.\n"], none⟩
        else
          .returned ⟨c,
            (ol.visit c.user.entries).map (fun e => e.1 ++ ": " ++ e.2 ++ "\n"), none⟩ := by
  unfold handleConfigCommand
  rw [if_neg (not_le_of_getElem? h1), index_of_getElem? h1]
  simp only [Outcome.bind, if_neg (show ¬ ("list" = "set") by decide),
    if_neg (show ¬ ("list" = "get") by decide),
    if_neg (show ¬ ("list" = "delete") by decide), if_true]

theorem GoMap.len_eq (g : GoMap) : g.len = g.entries.length := by
  cases g <;> rfl

theorem GoMap.get_of_delete (g : GoMap) (key k : String) :
    (g.delete key).get k = if k = key then none else g.get k := by
  cases g with
  | nil => simp [GoMap.delete, GoMap.get]
  | alloc m => exact m.get_delete key k

theorem GoMap.delete_of_get_eq_none (g : GoMap) (k : String) (h : g.get k = none) :
    g.delete k = g := by
  cases g with
  | nil => rfl
  | alloc m =>
    show GoMap.alloc (m.delete k) = GoMap.alloc m
    congr 1
    apply StrMap.ext
    show m.entries.filter (fun e => decide (e.1 ≠ k)) = m.entries
    rw [List.filter_eq_self]
    intro e he
    have hk := (GoMap.get_eq_none_iff (.alloc m) k).1 h
    have : e.1 ≠ k := fun heq => hk (List.mem_map.2 ⟨e, he, heq⟩)
    simpa using this

/-! ## The sub-commands -/

/-- C6: set-then-get round trip.  On a config whose `user` is allocated, `config set k v`
(any `v`, the empty string included) returns nil and writes nothing, and a following
`config get k` returns nil and writes exactly the line `k: v`. -/
theorem set_then_get (ol ol2 : RangeOrder) (m : StrMap) (g o : GoMap) (k v : String)
    (args : List String) (i : Nat) (args2 : List String) (j : Nat)
    (h1 : args[i + 1]? = some "set") (h2 : args[i + 2]? = some k)
    (h3 : args[i + 3]? = some v)
    (h4 : args2[j + 1]? = some "get") (h5 : args2[j + 2]? = some k) :
    ∃ c2, handleConfigCommand ol ⟨.alloc m, g, o⟩ args i = .returned ⟨c2, [], none⟩ ∧
      handleConfigCommand ol2 c2 args2 j
        = .returned ⟨c2, [k ++ ": " ++ v ++ "\n"], none⟩ := by
  refine ⟨⟨.alloc (m.set k v), g, o⟩, ?_, ?_⟩
  · rw [handle_set ol _ args i k v h1 h2 h3]
    rfl
  · rw [handle_get ol2 _ args2 j k h4 h5]
    have : (Config.mk (.alloc (m.set k v)) g o).user.get k = some v := by
      show (m.set k v).get k = some v
      rw [StrMap.get_set, if_pos rfl]
    rw [this]

/-- C6 at `user = {x: 1}`: `config set x 2`, then `config get x` writes `x: 2`. -/
theorem set_then_get_witness :
    ["config", "set", "x", "2"][0 + 1]? = some "set" ∧
    ["config", "set", "x", "2"][0 + 2]? = some "x" ∧
    ["config", "set", "x", "2"][0 + 3]? = some "2" ∧
    ["config", "get", "x"][0 + 1]? = some "get" ∧
    ["config", "get", "x"][0 + 2]? = some "x" ∧
    ∃ c2, handleConfigCommand .stored ⟨.alloc userX, .nil, .nil⟩
        ["config", "set", "x", "2"] 0 = .returned ⟨c2, [], none⟩ ∧
      handleConfigCommand .stored c2 ["config", "get", "x"] 0
        = .returned ⟨c2, ["x" ++ ": " ++ "2" ++ "\n"], none⟩ :=
  ⟨rfl, rfl, rfl, rfl, rfl,
    set_then_get .stored .stored userX .nil .nil "x" "2" ["config", "set", "x", "2"] 0
      ["config", "get", "x"] 0 rfl rfl rfl rfl rfl⟩

/-- C7: `config get k` returns nil exactly when `k` is a key of `user`.  When `user` maps
`k` to `v` it returns nil and writes the one line `k: v`; when `user` has no `k` it returns
the error `no value found for key 'k'` and writes nothing; either way the config is left
as it was. -/
theorem get_succeeds_iff_present (ol : RangeOrder) (c : Config) (args : List String)
    (i : Nat) (k : String)
    (h1 : args[i + 1]? = some "get") (h2 : args[i + 2]? = some k) :
    (∀ v, c.user.get k = some v →
      handleConfigCommand ol c args i = .returned ⟨c, [k ++ ": " ++ v ++ "\n"], none⟩) ∧
    (c.user.get k = none →
      handleConfigCommand ol c args i = .returned ⟨c, [], some (errKeyNotFound k)⟩) ∧
    (returnedError (handleConfigCommand ol c args i) = none ↔ ∃ v, c.user.get k = some v) := by
  rw [handle_get ol c args i k h1 h2]
  cases hget : c.user.get k with
  | none =>
    refine ⟨fun v hv => (by cases hv), fun _ => rfl, ?_⟩
    constructor
    · intro h
      cases h
    · rintro ⟨v, hv⟩
      cases hv
  | some w =>
    refine ⟨fun v hv => (by cases hv; rfl), fun h => (by cases h), ?_⟩
    exact ⟨fun _ => ⟨w, rfl⟩, fun _ => rfl⟩

/-- C7 at `user = {x: 1}` and `config get x`. -/
theorem get_succeeds_iff_present_witness :
    ["config", "get", "x"][0 + 1]? = some "get" ∧
    ["config", "get", "x"][0 + 2]? = some "x" ∧
    (∀ v, (Config.mk (.alloc userX) .nil .nil).user.get "x" = some v →
      handleConfigCommand .stored ⟨.alloc userX, .nil, .nil⟩ ["config", "get", "x"] 0
        = .returned ⟨⟨.alloc userX, .nil, .nil⟩, ["x" ++ ": " ++ v ++ "\n"], none⟩) ∧
    ((Config.mk (.alloc userX) .nil .nil).user.get "x" = none →
      handleConfigCommand .stored ⟨.alloc userX, .nil, .nil⟩ ["config", "get", "x"] 0
        = .returned ⟨⟨.alloc userX, .nil, .nil⟩, [], some (errKeyNotFound "x")⟩) ∧
    (returnedError
        (handleConfigCommand .stored ⟨.alloc userX, .nil, .nil⟩ ["config", "get", "x"] 0)
        = none ↔ ∃ v, (Config.mk (.alloc userX) .nil .nil).user.get "x" = some v) :=
  ⟨rfl, rfl,
    get_succeeds_iff_present .stored ⟨.alloc userX, .nil, .nil⟩ ["config", "get", "x"] 0 "x"
      rfl rfl⟩

/-- C8: `config delete k` never fails.  For every `user` and `k`, present or absent, it
returns nil, writes the confirmation naming `k`, and leaves a `user` without `k` that
agrees with the old one on every other key, `global` and `override` untouched; when `k`
was absent the config is unchanged; and a second `config delete k` leaves the config the
first one left. -/
theorem delete_never_fails (ol ol2 : RangeOrder) (c : Config) (args : List String)
    (i : Nat) (args2 : List String) (j : Nat) (k : String)
    (h1 : args[i + 1]? = some "delete") (h2 : args[i + 2]? = some k)
    (h3 : args2[j + 1]? = some "delete") (h4 : args2[j + 2]? = some k) :
    ∃ c2, handleConfigCommand ol c args i
        = .returned ⟨c2, ["Deleted key '" ++ k ++ "' from user configuration.\n"], none⟩ ∧
      c2.global = c.global ∧ c2.override = c.override ∧
      c2.user.get k = none ∧
      (∀ k2, k2 ≠ k → c2.user.get k2 = c.user.get k2) ∧
      (c.user.get k = none → c2 = c) ∧
      handleConfigCommand ol2 c2 args2 j
        = .returned ⟨c2, ["Deleted key '" ++ k ++ "' from user configuration.\n"], none⟩ := by
  have hk : (c.user.delete k).get k = none := by rw [GoMap.get_of_delete, if_pos rfl]
  refine ⟨{ c with user := c.user.delete k }, handle_delete ol c args i k h1 h2, rfl, rfl,
    hk, ?_, ?_, ?_⟩
  · intro k2 hne
    show (c.user.delete k).get k2 = _
    rw [GoMap.get_of_delete, if_neg hne]
  · intro h
    show Config.mk (c.user.delete k) c.global c.override = c
    rw [GoMap.delete_of_get_eq_none _ _ h]
  · rw [handle_delete ol2 _ args2 j k h3 h4]
    show Outcome.returned
      (Handled.mk (Config.mk ((c.user.delete k).delete k) c.global c.override) _ _) = _
    rw [GoMap.delete_of_get_eq_none _ _ hk]

/-- C8 at `user = {x: 1}` and `config delete y`, the key `y` being absent. -/
theorem delete_never_fails_witness :
    ["config", "delete", "y"][0 + 1]? = some "delete" ∧
    ["config", "delete", "y"][0 + 2]? = some "y" ∧
    ["sac", "config", "delete", "y"][1 + 1]? = some "delete" ∧
    ["sac", "config", "delete", "y"][1 + 2]? = some "y" ∧
    ∃ c2, handleConfigCommand .stored ⟨.alloc userX, .nil, .nil⟩ ["config", "delete", "y"] 0
        = .returned ⟨c2, ["Deleted key '" ++ "y" ++ "' from user configuration.\n"], none⟩ ∧
      c2.global = (Config.mk (.alloc userX) .nil .nil).global ∧
      c2.override = (Config.mk (.alloc userX) .nil .nil).override ∧
      c2.user.get "y" = none ∧
      (∀ k2, k2 ≠ "y" → c2.user.get k2 = (Config.mk (.alloc userX) .nil .nil).user.get k2) ∧
      ((Config.mk (.alloc userX) .nil .nil).user.get "y" = none →
        c2 = ⟨.alloc userX, .nil, .nil⟩) ∧
      handleConfigCommand .reversed c2 ["sac", "config", "delete", "y"] 1
        = .returned ⟨c2, ["Deleted key '" ++ "y" ++ "' from user configuration.\n"], none⟩ :=
  ⟨rfl, rfl, rfl, rfl,
    delete_never_fails .stored .reversed ⟨.alloc userX, .nil, .nil⟩ ["config", "delete", "y"]
      0 ["sac", "config", "delete", "y"] 1 "y" rfl rfl rfl rfl⟩

/-- C10: `config list` never fails and never changes the config.  When `user` has no entry
it writes exactly the one message `No configuration values found.`; otherwise it writes one
line `key: value` per entry of `user`, every entry once and nothing else, in the order the
iteration takes. -/
theorem list_emits_entries (ol : RangeOrder) (c : Config) (args : List String) (i : Nat)
    (h1 : args[i + 1]? = some "list") :
    ∃ out, handleConfigCommand ol c args i = .returned ⟨c, out, none⟩ ∧
      (c.user.entries = [] → out = ["No configuration values found.\n"]) ∧
      (c.user.entries ≠ [] →
        out.Perm (c.user.entries.map (fun e => e.1 ++ ": " ++ e.2 ++ "\n"))) := by
  rw [handle_list ol c args i h1, GoMap.len_eq]
  by_cases he : c.user.entries = []
  · refine ⟨_, ?_, fun _ => rfl, fun h => absurd he h⟩
    rw [if_pos (by rw [he]; rfl)]
  · refine ⟨_, ?_, fun h => absurd h he, fun _ => (ol.visit_perm c.user.entries).map _⟩
    rw [if_neg (fun h => he (List.length_eq_zero.1 h))]

/-- C10 at `user = {name: alice, editor: vim}` and `config list`, iterating in reverse. -/
theorem list_emits_entries_witness :
    ["config", "list"][0 + 1]? = some "list" ∧
    ∃ out, handleConfigCommand .reversed ⟨.alloc scenarioGlobal, .nil, .nil⟩
        ["config", "list"] 0 = .returned ⟨⟨.alloc scenarioGlobal, .nil, .nil⟩, out, none⟩ ∧
      ((Config.mk (.alloc scenarioGlobal) .nil .nil).user.entries = [] →
        out = ["No configuration values found.\n"]) ∧
      ((Config.mk (.alloc scenarioGlobal) .nil .nil).user.entries ≠ [] →
        out.Perm ((Config.mk (.alloc scenarioGlobal) .nil .nil).user.entries.map
          (fun e => e.1 ++ ": " ++ e.2 ++ "\n"))) :=
  ⟨rfl,
    list_emits_entries .reversed ⟨.alloc scenarioGlobal, .nil, .nil⟩ ["config", "list"] 0 rfl⟩

/-! ## Error classification -/

theorem ne_of_head_ne {a b : String} (h : a.data.head? ≠ b.data.head?) : a ≠ b :=
  fun e => h (by rw [e])

theorem head_errUnknownSubcommand (t : String) :
    (errUnknownSubcommand t).data.head? = some 'u' := by
  simp [errUnknownSubcommand]

theorem head_errKeyNotFound (k : String) : (errKeyNotFound k).data.head? = some 'n' := by
  simp [errKeyNotFound]

theorem handle_missing_subcommand (ol : RangeOrder) (c : Config) (args : List String)
    (i : Nat) (h : args.length ≤ i + 1) :
    handleConfigCommand ol c args i = .returned ⟨c, [], some errMissingSubcommand⟩ := by
  unfold handleConfigCommand
  rw [if_pos h]
  rfl

theorem handle_set_short (ol : RangeOrder) (c : Config) (args : List String) (i : Nat)
    (h1 : args[i + 1]? = some "set") (h : args.length ≤ i + 3) :
    handleConfigCommand ol c args i
      = .returned ⟨c, [], some "set command requires a key and value"⟩ := by
  unfold handleConfigCommand
  rw [if_neg (not_le_of_getElem? h1), index_of_getElem? h1]
  simp only [Outcome.bind, if_true, if_pos h]

theorem handle_get_short (ol : RangeOrder) (c : Config) (args : List String) (i : Nat)
    (h1 : args[i + 1]? = some "get") (h : args.length ≤ i + 2) :
    handleConfigCommand ol c args i = .returned ⟨c, [], some "get command requires a key"⟩ := by
  unfold handleConfigCommand
  rw [if_neg (not_le_of_getElem? h1), index_of_getElem? h1]
  simp only [Outcome.bind, if_neg (show ¬ ("get" = "set") by decide), if_true, if_pos h]

theorem handle_delete_short (ol : RangeOrder) (c : Config) (args : List String) (i : Nat)
    (h1 : args[i + 1]? = some "delete") (h : args.length ≤ i + 2) :
    handleConfigCommand ol c args i
      = .returned ⟨c, [], some "delete command requires a key"⟩ := by
  unfold handleConfigCommand
  rw [if_neg (not_le_of_getElem? h1), index_of_getElem? h1]
  simp only [Outcome.bind, if_neg (show ¬ ("delete" = "set") by decide),
    if_neg (show ¬ ("delete" = "get") by decide), if_true, if_pos h]

theorem handle_unknown (ol : RangeOrder) (c : Config) (args : List String) (i : Nat)
    (t : String) (h1 : args[i + 1]? = some t) (hs : t ≠ "set") (hg : t ≠ "get")
    (hd : t ≠ "delete") (hl : t ≠ "list") :
    handleConfigCommand ol c args i = .returned ⟨c, [], some (errUnknownSubcommand t)⟩ := by
  unfold handleConfigCommand
  rw [if_neg (not_le_of_getElem? h1), index_of_getElem? h1]
  simp only [Outcome.bind, if_neg hs, if_neg hg, if_neg hd, if_neg hl]
  rfl

theorem exists_getElem?_of_lt {args : List String} {n : Nat} (h : ¬ args.length ≤ n) :
    ∃ a, args[n]? = some a :=
  ⟨args[n], List.getElem?_eq_getElem (by omega)⟩

/-- Every way a call of the handler can end, told by the returned error. -/
theorem returnedError_cases (ol : RangeOrder) (c : Config) (args : List String) (i : Nat) :
    (args.length ≤ i + 1 ∧
      returnedError (handleConfigCommand ol c args i) = some errMissingSubcommand) ∨
    (args[i + 1]? = some "set" ∧ args.length ≤ i + 3 ∧
      returnedError (handleConfigCommand ol c args i)
        = some "set command requires a key and value") ∨
    (args[i + 1]? = some "get" ∧ args.length ≤ i + 2 ∧
      returnedError (handleConfigCommand ol c args i) = some "get command requires a key") ∨
    (args[i + 1]? = some "delete" ∧ args.length ≤ i + 2 ∧
      returnedError (handleConfigCommand ol c args i)
        = some "delete command requires a key") ∨
    (∃ t, args[i + 1]? = some t ∧ t ≠ "set" ∧ t ≠ "get" ∧ t ≠ "delete" ∧ t ≠ "list" ∧
      returnedError (handleConfigCommand ol c args i) = some (errUnknownSubcommand t)) ∨
    (∃ k, args[i + 1]? = some "get" ∧ ¬ args.length ≤ i + 2 ∧
      returnedError (handleConfigCommand ol c args i) = some (errKeyNotFound k)) ∨
    (((args[i + 1]? = some "set" ∧ ¬ args.length ≤ i + 3) ∨
        (args[i + 1]? = some "get" ∧ ¬ args.length ≤ i + 2) ∨
        (args[i + 1]? = some "delete" ∧ ¬ args.length ≤ i + 2) ∨
        args[i + 1]? = some "list") ∧
      returnedError (handleConfigCommand ol c args i) = none) := by
  by_cases hlen : args.length ≤ i + 1
  · exact Or.inl ⟨hlen, by rw [handle_missing_subcommand ol c args i hlen]; rfl⟩
  obtain ⟨t, ht⟩ := exists_getElem?_of_lt hlen
  by_cases hs : t = "set"
  · subst hs
    by_cases h3 : args.length ≤ i + 3
    · exact Or.inr (Or.inl ⟨ht, h3, by rw [handle_set_short ol c args i ht h3]; rfl⟩)
    · have h2 : ¬ args.length ≤ i + 2 := by omega
      obtain ⟨k, hk⟩ := exists_getElem?_of_lt h2
      obtain ⟨v, hv⟩ := exists_getElem?_of_lt h3
      refine Or.inr (Or.inr (Or.inr (Or.inr (Or.inr (Or.inr ⟨Or.inl ⟨ht, h3⟩, ?_⟩)))))
      rw [handle_set ol c args i k v ht hk hv]
      cases c.user <;> rfl
  by_cases hg : t = "get"
  · subst hg
    by_cases h2 : args.length ≤ i + 2
    · exact Or.inr (Or.inr (Or.inl ⟨ht, h2, by rw [handle_get_short ol c args i ht h2]; rfl⟩))
    · obtain ⟨k, hk⟩ := exists_getElem?_of_lt h2
      cases hget : c.user.get k with
      | none =>
        refine Or.inr (Or.inr (Or.inr (Or.inr (Or.inr (Or.inl ⟨k, ht, h2, ?_⟩)))))
        rw [handle_get ol c args i k ht hk, hget]
        rfl
      | some v =>
        refine Or.inr (Or.inr (Or.inr (Or.inr (Or.inr (Or.inr
          ⟨Or.inr (Or.inl ⟨ht, h2⟩), ?_⟩)))))
        rw [handle_get ol c args i k ht hk, hget]
        rfl
  by_cases hd : t = "delete"
  · subst hd
    by_cases h2 : args.length ≤ i + 2
    · exact Or.inr (Or.inr (Or.inr (Or.inl
        ⟨ht, h2, by rw [handle_delete_short ol c args i ht h2]; rfl⟩)))
    · obtain ⟨k, hk⟩ := exists_getElem?_of_lt h2
      refine Or.inr (Or.inr (Or.inr (Or.inr (Or.inr (Or.inr
        ⟨Or.inr (Or.inr (Or.inl ⟨ht, h2⟩)), ?_⟩)))))
      rw [handle_delete ol c args i k ht hk]
      rfl
  by_cases hl : t = "list"
  · subst hl
    refine Or.inr (Or.inr (Or.inr (Or.inr (Or.inr (Or.inr
      ⟨Or.inr (Or.inr (Or.inr ht)), ?_⟩)))))
    rw [handle_list ol c args i ht]
    split <;> rfl
  · refine Or.inr (Or.inr (Or.inr (Or.inr (Or.inl ⟨t, ht, hs, hg, hd, hl, ?_⟩))))
    rw [handle_unknown ol c args i t ht hs hg hd hl]
    rfl

theorem errKeyNotFound_ne_missing (k : String) : errKeyNotFound k ≠ errMissingSubcommand :=
  ne_of_head_ne (by rw [head_errKeyNotFound]; decide)

theorem errKeyNotFound_not_mem (k : String) : errKeyNotFound k ∉ errMissingArguments := by
  intro h
  simp only [errMissingArguments, List.mem_cons, List.mem_singleton, List.mem_nil_iff,
    or_false] at h
  rcases h with h | h | h <;>
    exact ne_of_head_ne (by rw [head_errKeyNotFound]; decide) h

theorem errKeyNotFound_ne_unknown (k t : String) :
    errKeyNotFound k ≠ errUnknownSubcommand t :=
  ne_of_head_ne (by rw [head_errKeyNotFound, head_errUnknownSubcommand]; decide)

theorem errUnknown_ne_missing (t : String) : errUnknownSubcommand t ≠ errMissingSubcommand :=
  ne_of_head_ne (by rw [head_errUnknownSubcommand]; decide)

theorem errUnknown_not_mem (t : String) : errUnknownSubcommand t ∉ errMissingArguments := by
  intro h
  simp only [errMissingArguments, List.mem_cons, List.mem_singleton, List.mem_nil_iff,
    or_false] at h
  rcases h with h | h | h <;>
    exact ne_of_head_ne (by rw [head_errUnknownSubcommand]; decide) h

theorem errMissing_not_mem : errMissingSubcommand ∉ errMissingArguments := by decide

theorem errUnknown_injective {t u : String}
    (h : errUnknownSubcommand t = errUnknownSubcommand u) : t = u := by
  have := congrArg String.data h
  simp only [errUnknownSubcommand, String.data_append, List.append_cancel_left_eq] at this
  exact String.ext this

/-- C9: error classification of `handleConfigCommand`, for every token list and index.
It returns the `MissingSubcommand` error exactly when no token follows the index; a
`MissingArguments` error exactly when the sub-command is `set` with fewer than two tokens
after it, or `get` or `delete` with none; an `UnknownSubcommand` error exactly when the
sub-command token is none of `set`, `get`, `delete`, `list`, and then the message ends in
that token; and `config set k` with no value returns the `MissingArguments` error of
`set`. -/
theorem handleConfigCommand_error_classes (ol : RangeOrder) (c : Config)
    (args : List String) (i : Nat) :
    (returnedError (handleConfigCommand ol c args i) = some errMissingSubcommand
      ↔ args.length ≤ i + 1) ∧
    ((∃ e, e ∈ errMissingArguments ∧ returnedError (handleConfigCommand ol c args i) = some e)
      ↔ (args[i + 1]? = some "set" ∧ args.length ≤ i + 3) ∨
        ((args[i + 1]? = some "get" ∨ args[i + 1]? = some "delete") ∧
          args.length ≤ i + 2)) ∧
    (∀ t, returnedError (handleConfigCommand ol c args i) = some (errUnknownSubcommand t)
      ↔ (args[i + 1]? = some t ∧ t ≠ "set" ∧ t ≠ "get" ∧ t ≠ "delete" ∧ t ≠ "list")) ∧
    (∀ (pre : List String) (k : String),
      handleConfigCommand ol c (pre ++ ["config", "set", k]) pre.length
        = .returned ⟨c, [], some "set command requires a key and value"⟩ ∧
      "set command requires a key and value" ∈ errMissingArguments) := by
  refine ⟨?_, ?_, ?_, ?_⟩
  · rcases returnedError_cases ol c args i with ⟨hl, hr⟩ | ⟨ht, hl, hr⟩ | ⟨ht, hl, hr⟩ |
      ⟨ht, hl, hr⟩ | ⟨t, ht, _, _, _, _, hr⟩ | ⟨k, ht, hl, hr⟩ |
      ⟨⟨ht, _⟩ | ⟨ht, _⟩ | ⟨ht, _⟩ | ht, hr⟩
    · simp [hr, hl]
    all_goals
      have hn := not_le_of_getElem? ht
      simp [hr, hn, errUnknown_ne_missing, errKeyNotFound_ne_missing,
        (by decide : "set command requires a key and value" ≠ errMissingSubcommand),
        (by decide : "get command requires a key" ≠ errMissingSubcommand),
        (by decide : "delete command requires a key" ≠ errMissingSubcommand)]
  · rcases returnedError_cases ol c args i with ⟨hl, hr⟩ | ⟨ht, hl, hr⟩ | ⟨ht, hl, hr⟩ |
      ⟨ht, hl, hr⟩ | ⟨t, ht, hs, hg, hd, _, hr⟩ | ⟨k, ht, hl, hr⟩ |
      ⟨⟨ht, hl⟩ | ⟨ht, hl⟩ | ⟨ht, hl⟩ | ht, hr⟩
    · have h1 : args[i + 1]? = none := List.getElem?_eq_none hl
      simp [hr, h1, errMissing_not_mem]
    · simp [hr, ht, hl, errMissingArguments]
    · simp [hr, ht, hl, errMissingArguments]
    · simp [hr, ht, hl, errMissingArguments]
    · simp [hr, ht, hs, hg, hd, errUnknown_not_mem]
    · simp [hr, ht, hl, errKeyNotFound_not_mem]
    · simp [hr, ht, hl]
    · simp [hr, ht, hl]
    · simp [hr, ht, hl]
    · simp [hr, ht]
  · intro u
    rcases returnedError_cases ol c args i with ⟨hl, hr⟩ | ⟨ht, hl, hr⟩ | ⟨ht, hl, hr⟩ |
      ⟨ht, hl, hr⟩ | ⟨t, ht, hs, hg, hd, hli, hr⟩ | ⟨k, ht, hl, hr⟩ |
      ⟨⟨ht, hl⟩ | ⟨ht, hl⟩ | ⟨ht, hl⟩ | ht, hr⟩
    · have h1 : args[i + 1]? = none := List.getElem?_eq_none hl
      simp [hr, h1, (errUnknown_ne_missing u).symm]
    · have hne : "set command requires a key and value" ≠ errUnknownSubcommand u :=
        fun h => errUnknown_not_mem u (h ▸ by decide)
      simp only [hr, ht, Option.some.injEq, hne, false_iff]
      rintro ⟨h, h1, _⟩
      exact h1 h.symm
    · have hne : "get command requires a key" ≠ errUnknownSubcommand u :=
        fun h => errUnknown_not_mem u (h ▸ by decide)
      simp only [hr, ht, Option.some.injEq, hne, false_iff]
      rintro ⟨h, _, h1, _⟩
      exact h1 h.symm
    · have hne : "delete command requires a key" ≠ errUnknownSubcommand u :=
        fun h => errUnknown_not_mem u (h ▸ by decide)
      simp only [hr, ht, Option.some.injEq, hne, false_iff]
      rintro ⟨h, _, _, h1, _⟩
      exact h1 h.symm
    · simp only [hr, ht, Option.some.injEq]
      constructor
      · intro h
        have := errUnknown_injective h
        subst this
        exact ⟨rfl, hs, hg, hd, hli⟩
      · rintro ⟨h, _⟩
        rw [h]
    · simp only [hr, ht, Option.some.injEq, errKeyNotFound_ne_unknown, false_iff]
      rintro ⟨h, _, h1, _⟩
      exact h1 h.symm
    all_goals
      rw [hr, ht]
      refine ⟨fun h => (by cases h), ?_⟩
      simp only [Option.some.injEq]
      rintro ⟨h, h1, h2, h3, h4⟩
      subst h
      first
        | exact absurd rfl h1
        | exact absurd rfl h2
        | exact absurd rfl h3
        | exact absurd rfl h4
  · intro pre k
    refine ⟨?_, by decide⟩
    apply handle_set_short
    · rw [List.getElem?_append_right (by omega)]
      simp
    · simp

/-! ## Every way the handler ends -/

/-- A call of the handler either returns, with `global` and `override` as they were and,
when it returns an error, the whole config as it was and nothing written; or it is a `set`
on a nil `user`, which panics. -/
theorem handle_cases (ol : RangeOrder) (c : Config) (args : List String) (i : Nat) :
    (∃ r, handleConfigCommand ol c args i = .returned r ∧
      r.config.global = c.global ∧ r.config.override = c.override ∧
      (∀ e, r.err = some e → r.config = c ∧ r.out = [])) ∨
    (c.user = .nil ∧ args[i + 1]? = some "set" ∧
      handleConfigCommand ol c args i = .panicked "assignment to entry in nil map") := by
  by_cases hlen : args.length ≤ i + 1
  · exact Or.inl ⟨_, handle_missing_subcommand ol c args i hlen, rfl, rfl, fun _ _ => ⟨rfl, rfl⟩⟩
  obtain ⟨t, ht⟩ := exists_getElem?_of_lt hlen
  by_cases hs : t = "set"
  · subst hs
    by_cases h3 : args.length ≤ i + 3
    · exact Or.inl ⟨_, handle_set_short ol c args i ht h3, rfl, rfl, fun _ _ => ⟨rfl, rfl⟩⟩
    · have h2 : ¬ args.length ≤ i + 2 := by omega
      obtain ⟨k, hk⟩ := exists_getElem?_of_lt h2
      obtain ⟨v, hv⟩ := exists_getElem?_of_lt h3
      rw [handle_set ol c args i k v ht hk hv]
      cases hu : c.user with
      | nil => exact Or.inr ⟨rfl, ht, rfl⟩
      | alloc m => exact Or.inl ⟨_, rfl, rfl, rfl, fun e he => by cases he⟩
  by_cases hg : t = "get"
  · subst hg
    by_cases h2 : args.length ≤ i + 2
    · exact Or.inl ⟨_, handle_get_short ol c args i ht h2, rfl, rfl, fun _ _ => ⟨rfl, rfl⟩⟩
    · obtain ⟨k, hk⟩ := exists_getElem?_of_lt h2
      rw [handle_get ol c args i k ht hk]
      cases c.user.get k with
      | none => exact Or.inl ⟨_, rfl, rfl, rfl, fun _ _ => ⟨rfl, rfl⟩⟩
      | some v => exact Or.inl ⟨_, rfl, rfl, rfl, fun e he => by cases he⟩
  by_cases hd : t = "delete"
  · subst hd
    by_cases h2 : args.length ≤ i + 2
    · exact Or.inl ⟨_, handle_delete_short ol c args i ht h2, rfl, rfl,
        fun _ _ => ⟨rfl, rfl⟩⟩
    · obtain ⟨k, hk⟩ := exists_getElem?_of_lt h2
      exact Or.inl ⟨_, handle_delete ol c args i k ht hk, rfl, rfl, fun e he => by cases he⟩
  by_cases hl : t = "list"
  · subst hl
    rw [handle_list ol c args i ht]
    by_cases h0 : c.user.len = 0
    · rw [if_pos h0]
      exact Or.inl ⟨_, rfl, rfl, rfl, fun e he => by cases he⟩
    · rw [if_neg h0]
      exact Or.inl ⟨_, rfl, rfl, rfl, fun e he => by cases he⟩
  · exact Or.inl ⟨_, handle_unknown ol c args i t ht hs hg hd hl, rfl, rfl,
      fun _ _ => ⟨rfl, rfl⟩⟩

theorem getElem?_eq_none_of_eq {args args2 : List String} {n : Nat}
    (h : args[n]? = args2[n]?) (hlen : args.length ≤ n) : args2.length ≤ n := by
  rw [List.getElem?_eq_none hlen] at h
  exact List.getElem?_eq_none_iff.1 h.symm

/-- The handler reads `args` only at the sub-command token and at the tokens the
sub-command consumes. -/
theorem handle_congr (ol : RangeOrder) (c : Config) (args args2 : List String) (i : Nat)
    (h1 : args[i + 1]? = args2[i + 1]?)
    (h2 : args[i + 1]? = some "set" ∨ args[i + 1]? = some "get" ∨
      args[i + 1]? = some "delete" → args[i + 2]? = args2[i + 2]?)
    (h3 : args[i + 1]? = some "set" → args[i + 3]? = args2[i + 3]?) :
    handleConfigCommand ol c args i = handleConfigCommand ol c args2 i := by
  by_cases hlen : args.length ≤ i + 1
  · rw [handle_missing_subcommand ol c args i hlen,
      handle_missing_subcommand ol c args2 i (getElem?_eq_none_of_eq h1 hlen)]
  obtain ⟨t, ht⟩ := exists_getElem?_of_lt hlen
  have ht2 : args2[i + 1]? = some t := h1 ▸ ht
  by_cases hs : t = "set"
  · subst hs
    have e2 := h2 (Or.inl ht)
    have e3 := h3 ht
    by_cases hl3 : args.length ≤ i + 3
    · rw [handle_set_short ol c args i ht hl3,
        handle_set_short ol c args2 i ht2 (getElem?_eq_none_of_eq e3 hl3)]
    · have hl2 : ¬ args.length ≤ i + 2 := by omega
      obtain ⟨k, hk⟩ := exists_getElem?_of_lt hl2
      obtain ⟨v, hv⟩ := exists_getElem?_of_lt hl3
      rw [handle_set ol c args i k v ht hk hv,
        handle_set ol c args2 i k v ht2 (e2 ▸ hk) (e3 ▸ hv)]
  by_cases hg : t = "get"
  · subst hg
    have e2 := h2 (Or.inr (Or.inl ht))
    by_cases hl2 : args.length ≤ i + 2
    · rw [handle_get_short ol c args i ht hl2,
        handle_get_short ol c args2 i ht2 (getElem?_eq_none_of_eq e2 hl2)]
    · obtain ⟨k, hk⟩ := exists_getElem?_of_lt hl2
      rw [handle_get ol c args i k ht hk, handle_get ol c args2 i k ht2 (e2 ▸ hk)]
  by_cases hd : t = "delete"
  · subst hd
    have e2 := h2 (Or.inr (Or.inr ht))
    by_cases hl2 : args.length ≤ i + 2
    · rw [handle_delete_short ol c args i ht hl2,
        handle_delete_short ol c args2 i ht2 (getElem?_eq_none_of_eq e2 hl2)]
    · obtain ⟨k, hk⟩ := exists_getElem?_of_lt hl2
      rw [handle_delete ol c args i k ht hk, handle_delete ol c args2 i k ht2 (e2 ▸ hk)]
  by_cases hl : t = "list"
  · subst hl
    rw [handle_list ol c args i ht, handle_list ol c args2 i ht2]
  · rw [handle_unknown ol c args i t ht hs hg hd hl,
      handle_unknown ol c args2 i t ht2 hs hg hd hl]

/-! ## The dispatch loop -/

theorem setupUser_nil (yaml : Unmarshal) (ord : RangeOrder) (g o : GoMap) :
    ∃ u, setupUser yaml ord ⟨.nil, g, o⟩ = .returned u := by
  have h : ord.visit [] = [] := List.Perm.eq_nil (ord.visit_perm [])
  refine ⟨⟨GoMap.nil.read "name", GoMap.nil.read "email", .alloc .empty, .alloc .empty⟩, ?_⟩
  show List.foldl _ _ (ord.visit []) = _
  rw [h]
  rfl

/-- C11: the code leaves the claim unmet.  On a config whose `user` is still the nil map,
`CommandSetup` on `config set k v` does not return: the assignment `config.user[key] =
value` panics. -/
theorem CommandSetup_set_on_nil_user_panics (yaml : Unmarshal) (cwd : FileProbe)
    (s : Sched) (g o : GoMap) (k v : String) :
    CommandSetup yaml cwd s ⟨.nil, g, o⟩ ["config", "set", k, v]
      = .panicked "assignment to entry in nil map" := by
  obtain ⟨u, hu⟩ := setupUser_nil yaml s.setup g o
  unfold CommandSetup
  rw [hu]
  show dispatch yaml cwd s _ 0 ["config", "set", k, v] _ = _
  rw [dispatch, if_neg (by decide), if_pos rfl,
    handle_set s.list _ ["config", "set", k, v] 0 k v rfl rfl rfl]
  rfl

/-- C13, as stated, fails: with no `.sac.yaml` in the directory, `ParseCurrentDir` leaves an
override `{theme: dark}` in place, and `ParseGlobal` leaves a global `{name: alice}` in
place; neither becomes the empty mapping. -/
theorem Parse_absent_counterexample :
    ParseCurrentDir yamlReject .absent ⟨.nil, .nil, .alloc themeOverride⟩
      = .returned ⟨.nil, .nil, .alloc themeOverride⟩ ∧
    (GoMap.alloc themeOverride).entries = [("theme", "dark")] ∧
    ParseGlobal yamlReject .absent ⟨.nil, .alloc aliceMap, .nil⟩
      = .returned ⟨.nil, .alloc aliceMap, .nil⟩ ∧
    (GoMap.alloc aliceMap).entries = [("name", "alice")] :=
  ⟨rfl, rfl, rfl, rfl⟩

/-- C13, amended: an absent file changes nothing.  When the current-directory `.sac.yaml`
does not exist, `ParseCurrentDir` returns with `override`, and the whole config, exactly as
it was; likewise `ParseGlobal` with `global` when the home-directory file does not exist.
On a config that was never loaded the map is the nil map, which has no entries. -/
theorem Parse_absent_unchanged (yaml : Unmarshal) (c : Config) :
    ParseCurrentDir yaml .absent c = .returned c ∧
    ParseGlobal yaml .absent c = .returned c ∧
    zeroConfig.override.entries = [] ∧ zeroConfig.global.entries = [] :=
  ⟨rfl, rfl, rfl, rfl⟩

theorem CommandSetup_config_first (yaml : Unmarshal) (cwd : FileProbe) (s : Sched)
    (c : Config) (rest : List String) :
    CommandSetup yaml cwd s c ("config" :: rest)
      = (setupUser yaml s.setup c).bind fun _ =>
        (handleConfigCommand s.list c ("config" :: rest) 0).bind fun r =>
        .returned (report r) := by
  unfold CommandSetup
  rw [dispatch, if_neg (by decide), if_pos rfl]

/-- C15: an empty override suppresses a global setting end to end.  When the override maps
`k` to the empty string, then after `BuildUser`, whatever the global holds for `k`,
`config get k` returns the error `no value found for key 'k'`, writes nothing and leaves
the config as resolved. -/
theorem empty_override_suppresses (og oo ou ol : RangeOrder) (c : Config) (k : String)
    (args : List String) (i : Nat) (ho : c.override.get k = some "")
    (h1 : args[i + 1]? = some "get") (h2 : args[i + 2]? = some k) :
    handleConfigCommand ol (BuildUser og oo ou c) args i
      = .returned ⟨BuildUser og oo ou c, [], some (errKeyNotFound k)⟩ := by
  have hget : (BuildUser og oo ou c).user.get k = none := by
    rw [BuildUser_get, ho]
    rfl
  rw [handle_get ol _ args i k h1 h2, hget]
  rfl

/-- C15 at global `{name: alice, editor: vim}`, override `{editor: ""}` and
`config get editor`. -/
theorem empty_override_suppresses_witness :
    scenarioConfig.override.get "editor" = some "" ∧
    ["config", "get", "editor"][0 + 1]? = some "get" ∧
    ["config", "get", "editor"][0 + 2]? = some "editor" ∧
    handleConfigCommand .stored (BuildUser .stored .stored .stored scenarioConfig)
        ["config", "get", "editor"] 0
      = .returned ⟨BuildUser .stored .stored .stored scenarioConfig, [],
          some (errKeyNotFound "editor")⟩ :=
  ⟨rfl, rfl, rfl,
    empty_override_suppresses .stored .stored .stored .stored scenarioConfig "editor"
      ["config", "get", "editor"] 0 rfl rfl rfl⟩

/-- C16: `config set k v` overwrites one key and prunes nothing.  On a config whose `user`
is allocated it returns nil and writes nothing; afterwards `user` maps `k` to `v`, also
when `v` is the empty string, and every other key reads as before; `global` and `override`
are as they were. -/
theorem set_overwrites_without_pruning (ol : RangeOrder) (m : StrMap) (g o : GoMap)
    (k v : String) (args : List String) (i : Nat)
    (h1 : args[i + 1]? = some "set") (h2 : args[i + 2]? = some k)
    (h3 : args[i + 3]? = some v) :
    handleConfigCommand ol ⟨.alloc m, g, o⟩ args i
      = .returned ⟨⟨.alloc (m.set k v), g, o⟩, [], none⟩ ∧
    (m.set k v).get k = some v ∧
    (∀ k2, k2 ≠ k → (m.set k v).get k2 = m.get k2) := by
  refine ⟨?_, ?_, ?_⟩
  · rw [handle_set ol _ args i k v h1 h2 h3]
    rfl
  · rw [StrMap.get_set, if_pos rfl]
  · intro k2 hne
    rw [StrMap.get_set, if_neg hne]

/-- C16 at `user = {x: 1}` and `config set x ""`: the key stays, with the empty value. -/
theorem set_overwrites_without_pruning_witness :
    ["config", "set", "x", ""][0 + 1]? = some "set" ∧
    ["config", "set", "x", ""][0 + 2]? = some "x" ∧
    ["config", "set", "x", ""][0 + 3]? = some "" ∧
    handleConfigCommand .stored ⟨.alloc userX, .nil, .nil⟩ ["config", "set", "x", ""] 0
      = .returned ⟨⟨.alloc (userX.set "x" ""), .nil, .nil⟩, [], none⟩ ∧
    (userX.set "x" "").get "x" = some "" ∧
    (∀ k2, k2 ≠ "x" → (userX.set "x" "").get k2 = userX.get k2) :=
  ⟨rfl, rfl, rfl,
    set_overwrites_without_pruning .stored userX .nil .nil "x" "" ["config", "set", "x", ""]
      0 rfl rfl rfl⟩

theorem Heap.get_put_self (h : Heap) (a : Nat) (m : StrMap) (ha : a < h.tables.length) :
    (h.put a m).get a = m := by
  simp only [Heap.get, Heap.put, List.getD_eq_getElem?_getD, List.getElem?_set_self ha,
    Option.getD_some]

theorem Heap.get_put_ne (h : Heap) (a b : Nat) (m : StrMap) (hne : b ≠ a) :
    (h.put a m).get b = h.get b := by
  simp only [Heap.get, Heap.put, List.getD_eq_getElem?_getD,
    List.getElem?_set_ne (fun e => hne e.symm)]

theorem Heap.length_put (h : Heap) (a : Nat) (m : StrMap) :
    (h.put a m).tables.length = h.tables.length :=
  List.length_set _ _ _

theorem Heap.put_get_self (h : Heap) (a : Nat) : h.put a (h.get a) = h := by
  cases h with
  | mk tables =>
    show Heap.mk (tables.set a (tables.getD a .empty)) = Heap.mk tables
    congr 1
    apply List.ext_getElem?
    intro n
    rw [List.getElem?_set, List.getD_eq_getElem?_getD]
    by_cases hn : a = n
    · subst hn
      rw [if_pos rfl]
      by_cases hl : a < tables.length
      · rw [if_pos hl, List.getElem?_eq_getElem hl]
        rfl
      · rw [if_neg hl, List.getElem?_eq_none (by omega)]
    · rw [if_neg hn]

theorem Heap.load_put_ne (h : Heap) (a : Nat) (m : StrMap) (r : MapRef) (hne : r ≠ some a) :
    (h.put a m).load r = h.load r := by
  cases r with
  | none => rfl
  | some b =>
    show GoMap.alloc ((h.put a m).get b) = GoMap.alloc (h.get b)
    rw [Heap.get_put_ne h a b m (fun e => hne (by rw [e]))]

theorem foldl_get_ne {ε : Type} (step : Heap → ε → Heap) (b : Nat)
    (hstep : ∀ h e, (step h e).get b = h.get b) (l : List ε) (h : Heap) :
    (l.foldl step h).get b = h.get b := by
  induction l generalizing h with
  | nil => rfl
  | cons e t ih => rw [List.foldl_cons, ih, hstep]

theorem foldl_length {ε : Type} (step : Heap → ε → Heap)
    (hstep : ∀ h e, (step h e).tables.length = h.tables.length) (l : List ε) (h : Heap) :
    (l.foldl step h).tables.length = h.tables.length := by
  induction l generalizing h with
  | nil => rfl
  | cons e t ih => rw [List.foldl_cons, ih, hstep]

/-- A loop that rewrites the table at `a` from its own content does to that table what the
same loop does to a map value. -/
theorem foldl_get_self {ε : Type} (a : Nat) (f : StrMap → ε → StrMap) (l : List ε)
    (h : Heap) (ha : a < h.tables.length) :
    (l.foldl (fun h e => h.put a (f (h.get a) e)) h).get a = l.foldl f (h.get a) := by
  induction l generalizing h with
  | nil => rfl
  | cons e t ih =>
    rw [List.foldl_cons, List.foldl_cons, ih _ (by rw [Heap.length_put]; exact ha),
      Heap.get_put_self h a _ ha]

theorem Heap.get_append_of_lt (tables : List StrMap) (m : StrMap) (b : Nat)
    (hb : b < tables.length) : (Heap.mk (tables ++ [m])).get b = (Heap.mk tables).get b := by
  simp only [Heap.get, List.getD_eq_getElem?_getD, List.getElem?_append_left hb]

theorem Heap.get_append_length (tables : List StrMap) (m : StrMap) :
    (Heap.mk (tables ++ [m])).get tables.length = m := by
  simp [Heap.get, List.getD_eq_getElem?_getD]

theorem Heap.load_congr (h₁ h₂ : Heap) (r : MapRef)
    (hr : ∀ b, r = some b → h₁.get b = h₂.get b) : h₁.load r = h₂.load r := by
  cases r with
  | none => rfl
  | some b =>
    show GoMap.alloc (h₁.get b) = GoMap.alloc (h₂.get b)
    rw [hr b rfl]

/-- `BuildUserRef` does on the heap what `BuildUser` does on the maps the config denotes:
the new table holds the resolved `user`, and no other table changes. -/
theorem BuildUserRef_view (og oo ou : RangeOrder) (h : Heap) (c : ConfigRef)
    (hwf : ∀ a, c.global = some a ∨ c.override = some a → a < h.tables.length) :
    (BuildUserRef og oo ou h c).2.view (BuildUserRef og oo ou h c).1
      = BuildUser og oo ou (c.view h) := by
  -- the heaps of the run
  let a := h.tables.length
  let h0 : Heap := ⟨h.tables ++ [StrMap.empty]⟩
  let h1 := (og.visit (h0.load c.global).entries).foldl
    (fun h e => h.put a ((h.get a).set e.1 e.2)) h0
  let h2 := (oo.visit (h1.load c.override).entries).foldl
    (fun h e => h.put a ((h.get a).set e.1 e.2)) h1
  let h3 := (ou.visit (h2.get a).entries).foldl
    (fun h e => if e.2 = "" then h.put a ((h.get a).delete e.1) else h) h2
  have hstep3 : (fun (h : Heap) (e : String × String) =>
        if e.2 = "" then h.put a ((h.get a).delete e.1) else h)
      = (fun h e => h.put a ((fun (u : StrMap) (e : String × String) =>
          if e.2 = "" then u.delete e.1 else u) (h.get a) e)) := by
    funext h e
    by_cases he : e.2 = ""
    · simp only [if_pos he]
    · simp only [if_neg he, Heap.put_get_self]
  have hlen0 : a < h0.tables.length := by
    show h.tables.length < (h.tables ++ [StrMap.empty]).length
    rw [List.length_append]
    exact Nat.lt_succ_self _
  have hlen1 : a < h1.tables.length := by
    show a < (List.foldl _ h0 _).tables.length
    rw [foldl_length _ (fun h e => Heap.length_put h a _)]
    exact hlen0
  have hlen2 : a < h2.tables.length := by
    show a < (List.foldl _ h1 _).tables.length
    rw [foldl_length _ (fun h e => Heap.length_put h a _)]
    exact hlen1
  -- the tables below `a` are never written
  have hf0 : ∀ b, b < a → h0.get b = h.get b :=
    fun b hb => Heap.get_append_of_lt h.tables _ b hb
  have hf1 : ∀ b, b < a → h1.get b = h.get b := by
    intro b hb
    show (List.foldl _ h0 _).get b = _
    rw [foldl_get_ne _ b (fun h e => Heap.get_put_ne h a b _ (Nat.ne_of_lt hb)), hf0 b hb]
  have hf2 : ∀ b, b < a → h2.get b = h.get b := by
    intro b hb
    show (List.foldl _ h1 _).get b = _
    rw [foldl_get_ne _ b (fun h e => Heap.get_put_ne h a b _ (Nat.ne_of_lt hb)), hf1 b hb]
  have hf3 : ∀ b, b < a → h3.get b = h.get b := by
    intro b hb
    show (List.foldl _ h2 _).get b = _
    rw [foldl_get_ne _ b (fun h e => by
      by_cases he : e.2 = ""
      · simp only [if_pos he]
        exact Heap.get_put_ne h a b _ (Nat.ne_of_lt hb)
      · simp only [if_neg he]), hf2 b hb]
  have hg0 : h0.load c.global = h.load c.global :=
    Heap.load_congr _ _ _ (fun b hb => hf0 b (hwf b (Or.inl hb)))
  have ho1 : h1.load c.override = h.load c.override :=
    Heap.load_congr _ _ _ (fun b hb => hf1 b (hwf b (Or.inr hb)))
  have hg3 : h3.load c.global = h.load c.global :=
    Heap.load_congr _ _ _ (fun b hb => hf3 b (hwf b (Or.inl hb)))
  have ho3 : h3.load c.override = h.load c.override :=
    Heap.load_congr _ _ _ (fun b hb => hf3 b (hwf b (Or.inr hb)))
  -- the table at `a` goes through the loops of `BuildUser`
  have hu1 : h1.get a = (og.visit (h.load c.global).entries).foldl
      (fun u e => u.set e.1 e.2) StrMap.empty := by
    have e1 := foldl_get_self a (fun (u : StrMap) (e : String × String) => u.set e.1 e.2)
      (og.visit (h0.load c.global).entries) h0 hlen0
    have e2 : h0.get a = StrMap.empty := Heap.get_append_length _ _
    exact e1.trans (by rw [e2, hg0])
  have hu2 : h2.get a = (oo.visit (h.load c.override).entries).foldl
      (fun u e => u.set e.1 e.2) (h1.get a) := by
    have e1 := foldl_get_self a (fun (u : StrMap) (e : String × String) => u.set e.1 e.2)
      (oo.visit (h1.load c.override).entries) h1 hlen1
    exact e1.trans (by rw [ho1])
  have hu3 : h3.get a = (ou.visit (h2.get a).entries).foldl
      (fun u e => if e.2 = "" then u.delete e.1 else u) (h2.get a) := by
    have e1 := foldl_get_self a (fun (u : StrMap) (e : String × String) =>
      if e.2 = "" then u.delete e.1 else u) (ou.visit (h2.get a).entries) h2 hlen2
    show (List.foldl _ h2 (ou.visit (h2.get a).entries)).get a = _
    rw [hstep3]
    exact e1
  show Config.mk (GoMap.alloc (h3.get a)) (h3.load c.global) (h3.load c.override) = _
  rw [hg3, ho3, hu3, hu2, hu1]
  rfl

/-! ## Machine integers -/

theorem wrapInt_add_one (n : Nat) (h : (n : Int) < maxInt) :
    wrapInt ((n : Int) + 1) = ((n + 1 : Nat) : Int) := by
  unfold maxInt at h
  unfold wrapInt
  push_cast
  omega

theorem wrapInt_add_two (n : Nat) (h : (n : Int) + 1 < maxInt) :
    wrapInt ((n : Int) + 2) = ((n + 2 : Nat) : Int) := by
  unfold maxInt at h
  unfold wrapInt
  push_cast
  omega

theorem wrapInt_add_three (n : Nat) (h : (n : Int) + 2 < maxInt) :
    wrapInt ((n : Int) + 3) = ((n + 3 : Nat) : Int) := by
  unfold maxInt at h
  unfold wrapInt
  push_cast
  omega

theorem indexInt_natCast (args : List String) (m : Nat) :
    indexInt args (m : Int) = index args m := by
  unfold indexInt
  rw [if_pos (Int.natCast_nonneg m), Int.toNat_natCast]

theorem Heap.store_load (h : Heap) (r : MapRef) : h.store r (h.load r) = h := by
  cases r with
  | none => rfl
  | some a => exact Heap.put_get_self h a

/-! ## The handler on references and the handler on values -/

/-- For an index below `math.MaxInt` and a token list shorter than that, the handler on
references ends as the handler on the denoted maps does, with the same output and error;
the heap it leaves is the old one with the table of `user` replaced by the new `user`. -/
theorem handleConfigCommandRef_sim (ol : RangeOrder) (h : Heap) (c : ConfigRef)
    (args : List String) (n : Nat) (hn : (n : Int) < maxInt)
    (hlen : (args.length : Int) < maxInt) :
    handleConfigCommandRef ol h c args n
      = match handleConfigCommand ol (c.view h) args n with
        | .returned r => .returned ⟨h.store c.user r.config.user, r.out, r.err⟩
        | .panicked msg => .panicked msg := by
  have w1 := wrapInt_add_one n hn
  by_cases hl1 : args.length ≤ n + 1
  · rw [handle_missing_subcommand ol _ args n hl1]
    unfold handleConfigCommandRef
    rw [w1, if_pos (Int.ofNat_le.2 hl1)]
    show _ = Outcome.returned (HandledRef.mk (h.store c.user (h.load c.user)) _ _)
    rw [Heap.store_load]
    rfl
  have hn3 : (n : Int) + 2 < maxInt := by
    have : (n : Int) + 1 < (args.length : Int) := by omega
    omega
  have w2 := wrapInt_add_two n (by omega)
  have w3 := wrapInt_add_three n hn3
  have g1 : ¬ (args.length : Int) ≤ ((n + 1 : Nat) : Int) := fun hle => hl1 (Int.ofNat_le.1 hle)
  obtain ⟨t, ht⟩ := exists_getElem?_of_lt hl1
  unfold handleConfigCommandRef
  rw [w1, w2, w3, if_neg g1, indexInt_natCast, index_of_getElem? ht]
  simp only [Outcome.bind, indexInt_natCast, Int.ofNat_le]
  by_cases hs : t = "set"
  · subst hs
    rw [if_pos rfl]
    by_cases hl3 : args.length ≤ n + 3
    · rw [if_pos hl3, handle_set_short ol _ args n ht hl3]
      show _ = Outcome.returned (HandledRef.mk (h.store c.user (h.load c.user)) _ _)
      rw [Heap.store_load]
    · have hl2 : ¬ args.length ≤ n + 2 := by omega
      obtain ⟨k, hk⟩ := exists_getElem?_of_lt hl2
      obtain ⟨v, hv⟩ := exists_getElem?_of_lt hl3
      rw [if_neg hl3, index_of_getElem? hk, index_of_getElem? hv,
        handle_set ol _ args n k v ht hk hv]
      cases hu : c.user with
      | none => simp only [ConfigRef.view, hu]; rfl
      | some a => simp only [ConfigRef.view, hu]; rfl
  rw [if_neg hs]
  by_cases hg : t = "get"
  · subst hg
    rw [if_pos rfl]
    by_cases hl2 : args.length ≤ n + 2
    · rw [if_pos hl2, handle_get_short ol _ args n ht hl2]
      show _ = Outcome.returned (HandledRef.mk (h.store c.user (h.load c.user)) _ _)
      rw [Heap.store_load]
    · obtain ⟨k, hk⟩ := exists_getElem?_of_lt hl2
      rw [if_neg hl2, index_of_getElem? hk, handle_get ol _ args n k ht hk]
      dsimp only [ConfigRef.view]
      cases (h.load c.user).get k with
      | none =>
        show _ = Outcome.returned (HandledRef.mk (h.store c.user (h.load c.user)) _ _)
        rw [Heap.store_load]
      | some v =>
        show _ = Outcome.returned (HandledRef.mk (h.store c.user (h.load c.user)) _ _)
        rw [Heap.store_load]
  rw [if_neg hg]
  by_cases hd : t = "delete"
  · subst hd
    rw [if_pos rfl]
    by_cases hl2 : args.length ≤ n + 2
    · rw [if_pos hl2, handle_delete_short ol _ args n ht hl2]
      show _ = Outcome.returned (HandledRef.mk (h.store c.user (h.load c.user)) _ _)
      rw [Heap.store_load]
    · obtain ⟨k, hk⟩ := exists_getElem?_of_lt hl2
      rw [if_neg hl2, index_of_getElem? hk, handle_delete ol _ args n k ht hk]
      cases hu : c.user with
      | none => simp only [ConfigRef.view, hu]; rfl
      | some a => simp only [ConfigRef.view, hu]; rfl
  rw [if_neg hd]
  by_cases hli : t = "list"
  · subst hli
    rw [if_pos rfl, handle_list ol _ args n ht]
    show _ = match (if (h.load c.user).len = 0 then
          Outcome.returned (Handled.mk (c.view h) _ _)
        else Outcome.returned (Handled.mk (c.view h) _ _)) with
        | .returned r => Outcome.returned (HandledRef.mk (h.store c.user r.config.user) _ _)
        | .panicked msg => .panicked msg
    by_cases h0 : (h.load c.user).len = 0
    · rw [if_pos h0, if_pos h0]
      show _ = Outcome.returned (HandledRef.mk (h.store c.user (h.load c.user)) _ _)
      rw [Heap.store_load]
    · rw [if_neg h0, if_neg h0]
      show _ = Outcome.returned (HandledRef.mk (h.store c.user (h.load c.user)) _ _)
      rw [Heap.store_load]
      rfl
  · rw [if_neg hli, handle_unknown ol _ args n t ht hs hg hd hli]
    show _ = Outcome.returned (HandledRef.mk (h.store c.user (h.load c.user)) _ _)
    rw [Heap.store_load]
    rfl

theorem Outcome.bind_eq_returned {α β : Type} {x : Outcome α} {f : α → Outcome β} {b : β}
    (h : x.bind f = .returned b) : ∃ a, x = .returned a ∧ f a = .returned b := by
  cases x with
  | returned a => exact ⟨a, rfl, h⟩
  | panicked msg => cases h

/-- Whatever the index, a call of the handler that returns leaves the heap as it was or
with the table of `user`, and no other, replaced. -/
theorem handleConfigCommandRef_heap (ol : RangeOrder) (h : Heap) (c : ConfigRef)
    (args : List String) (i : Int) (r : HandledRef)
    (hr : handleConfigCommandRef ol h c args i = .returned r) :
    r.heap = h ∨ ∃ a m, c.user = some a ∧ r.heap = h.put a m := by
  unfold handleConfigCommandRef at hr
  split at hr
  · cases hr
    exact Or.inl rfl
  obtain ⟨sub, _, hr⟩ := Outcome.bind_eq_returned hr
  split at hr
  · split at hr
    · cases hr
      exact Or.inl rfl
    obtain ⟨key, _, hr⟩ := Outcome.bind_eq_returned hr
    obtain ⟨value, _, hr⟩ := Outcome.bind_eq_returned hr
    obtain ⟨h1, hh1, hr⟩ := Outcome.bind_eq_returned hr
    cases hr
    cases hu : c.user with
    | none =>
      rw [hu] at hh1
      cases hh1
    | some a =>
      rw [hu] at hh1
      cases hh1
      exact Or.inr ⟨a, _, rfl, rfl⟩
  split at hr
  · split at hr
    · cases hr
      exact Or.inl rfl
    obtain ⟨key, _, hr⟩ := Outcome.bind_eq_returned hr
    split at hr <;> cases hr <;> exact Or.inl rfl
  split at hr
  · split at hr
    · cases hr
      exact Or.inl rfl
    obtain ⟨key, _, hr⟩ := Outcome.bind_eq_returned hr
    cases hr
    cases hu : c.user with
    | none => exact Or.inl rfl
    | some a => exact Or.inr ⟨a, _, rfl, rfl⟩
  split at hr
  · split at hr <;> cases hr <;> exact Or.inl rfl
  · cases hr
    exact Or.inl rfl

/-! ## Index safety, trailing tokens, and the frame -/

/-- C18, as stated, fails: on a config whose `user` is built, at `startIndex = math.MaxInt`
the sum `startIndex+1` wraps to the least `int`, the guard `len(args) <= startIndex+1` is
false, and the read `args[startIndex+1]` is out of range. -/
theorem handleConfigCommandRef_index_counterexample :
    (0 : Int) ≤ maxInt ∧
    builtRef.user = some 0 ∧
    wrapInt (maxInt + 1) = -9223372036854775808 ∧
    handleConfigCommandRef .stored heapX builtRef ["config", "list"] maxInt
      = .panicked "index out of range" :=
  ⟨by decide, rfl, by decide, rfl⟩

/-- C18, amended: index safety below `math.MaxInt`.  For every config, every token list
(shorter than `math.MaxInt`, as every slice is) and every index `i` with
`0 <= i < math.MaxInt`, the handler never reads `args` out of range; on a config whose
`user` is built it returns. -/
theorem handleConfigCommandRef_index_safe (ol : RangeOrder) (h : Heap) (c : ConfigRef)
    (args : List String) (i : Int) (h0 : 0 ≤ i) (hi : i < maxInt)
    (hlen : (args.length : Int) < maxInt) :
    handleConfigCommandRef ol h c args i ≠ .panicked "index out of range" ∧
    (c.user ≠ none → ∃ r, handleConfigCommandRef ol h c args i = .returned r) := by
  obtain ⟨n, rfl⟩ := Int.eq_ofNat_of_zero_le h0
  rw [handleConfigCommandRef_sim ol h c args n hi hlen]
  rcases handle_cases ol (c.view h) args n with ⟨r, hr, _⟩ | ⟨hnil, _, hp⟩
  · rw [hr]
    exact ⟨fun e => (by cases e), fun _ => ⟨_, rfl⟩⟩
  · rw [hp]
    refine ⟨fun e => absurd (Outcome.panicked.inj e) (by decide), fun hu => ?_⟩
    cases hc : c.user with
    | none => exact absurd hc hu
    | some a =>
      have : (c.view h).user = .alloc (h.get a) := by
        show h.load c.user = _
        rw [hc]
        rfl
      rw [this] at hnil
      cases hnil

/-- C18, amended, at the largest index it covers, `math.MaxInt - 1`, on a config whose
`user` is the table `{x: 1}`. -/
theorem handleConfigCommandRef_index_safe_witness :
    (0 : Int) ≤ 9223372036854775806 ∧
    (9223372036854775806 : Int) < maxInt ∧
    ((["config", "set", "x", "2"].length : Nat) : Int) < maxInt ∧
    handleConfigCommandRef .stored heapX builtRef ["config", "set", "x", "2"]
        9223372036854775806 ≠ .panicked "index out of range" ∧
    (builtRef.user ≠ none →
      ∃ r, handleConfigCommandRef .stored heapX builtRef ["config", "set", "x", "2"]
        9223372036854775806 = .returned r) :=
  ⟨by decide, by decide, by decide,
    handleConfigCommandRef_index_safe .stored heapX builtRef ["config", "set", "x", "2"]
      9223372036854775806 (by decide) (by decide) (by decide)⟩

/-- C19: trailing tokens are ignored, and where the code leaves the claim unmet.  Two token
lists that agree at the sub-command token and at the tokens the sub-command consumes (two
for `set`, one for `get` and `delete`, none otherwise) make the handler end the same way
on every config: same error, same output, same config.  On a config whose `user` is
allocated, `config set k v extra` returns nil and sets `k` to `v`.  On a config whose
`user` is the nil map it does not succeed: the handler, and `CommandSetup` with it,
panics on the assignment. -/
theorem handle_ignores_trailing_tokens (ol : RangeOrder) :
    (∀ (c : Config) (args args2 : List String) (i : Nat),
      args[i + 1]? = args2[i + 1]? →
      (args[i + 1]? = some "set" ∨ args[i + 1]? = some "get" ∨
        args[i + 1]? = some "delete" → args[i + 2]? = args2[i + 2]?) →
      (args[i + 1]? = some "set" → args[i + 3]? = args2[i + 3]?) →
      handleConfigCommand ol c args i = handleConfigCommand ol c args2 i) ∧
    (∀ (m : StrMap) (g o : GoMap) (k v extra : String),
      handleConfigCommand ol ⟨.alloc m, g, o⟩ ["config", "set", k, v, extra] 0
        = .returned ⟨⟨.alloc (m.set k v), g, o⟩, [], none⟩) ∧
    (∀ (g o : GoMap) (k v extra : String),
      handleConfigCommand ol ⟨.nil, g, o⟩ ["config", "set", k, v, extra] 0
        = .panicked "assignment to entry in nil map") ∧
    (∀ (yaml : Unmarshal) (cwd : FileProbe) (s : Sched) (k v extra : String),
      CommandSetup yaml cwd s zeroConfig ["config", "set", k, v, extra]
        = .panicked "assignment to entry in nil map") := by
  refine ⟨fun c args args2 i h1 h2 h3 => handle_congr ol c args args2 i h1 h2 h3, ?_, ?_, ?_⟩
  · intro m g o k v extra
    rw [handle_set ol _ ["config", "set", k, v, extra] 0 k v rfl rfl rfl]
    rfl
  · intro g o k v extra
    rw [handle_set ol _ ["config", "set", k, v, extra] 0 k v rfl rfl rfl]
    rfl
  · intro yaml cwd s k v extra
    obtain ⟨u, hu⟩ := setupUser_nil yaml s.setup .nil .nil
    rw [CommandSetup_config_first]
    show ((setupUser yaml s.setup ⟨.nil, .nil, .nil⟩).bind _) = _
    rw [hu, handle_set s.list _ ["config", "set", k, v, extra] 0 k v rfl rfl rfl]
    rfl

/-- C20, as stated, fails: on a config whose `user` and `global` are the same map `{x: 1}`,
`config set x 2` returns nil and `global` is then `{x: 2}`. -/
theorem inputs_written_when_aliased :
    aliasedRef.user = aliasedRef.global ∧
    (aliasedRef.view heapX).global.entries = [("x", "1")] ∧
    handleConfigCommandRef .stored heapX aliasedRef ["config", "set", "x", "2"] 0
      = .returned ⟨⟨[userX.set "x" "2"]⟩, [], none⟩ ∧
    (aliasedRef.view ⟨[userX.set "x" "2"]⟩).global.entries = [("x", "2")] :=
  ⟨rfl, rfl, rfl, rfl⟩

/-- C20, amended: the inputs are written only through a shared map.  `BuildUser` gives
`user` a newly made map and leaves `global` and `override` (the references and the
maps) as they were, on every config.  The handler, for every token list and every index,
writes no table but the one `user` refers to; so on every config whose `user` is not the
same map as `global` or `override`, it leaves `global` and `override` as they were. -/
theorem inputs_never_written (og oo ou ol : RangeOrder) (h : Heap) (c : ConfigRef)
    (args : List String) (i : Int)
    (hwf : ∀ a, c.global = some a ∨ c.override = some a → a < h.tables.length) :
    ((BuildUserRef og oo ou h c).2.global = c.global ∧
      (BuildUserRef og oo ou h c).2.override = c.override ∧
      (BuildUserRef og oo ou h c).1.load c.global = h.load c.global ∧
      (BuildUserRef og oo ou h c).1.load c.override = h.load c.override) ∧
    (∀ r, handleConfigCommandRef ol h c args i = .returned r →
      (∀ b, c.user ≠ some b → r.heap.get b = h.get b) ∧
      ((∀ a, c.user = some a → c.global ≠ some a ∧ c.override ≠ some a) →
        r.heap.load c.global = h.load c.global ∧
        r.heap.load c.override = h.load c.override)) := by
  constructor
  · have hv := BuildUserRef_view og oo ou h c hwf
    exact ⟨rfl, rfl, congrArg Config.global hv, congrArg Config.override hv⟩
  · intro r hr
    rcases handleConfigCommandRef_heap ol h c args i r hr with he | ⟨a, m, hu, he⟩
    · rw [he]
      exact ⟨fun _ _ => rfl, fun _ => ⟨rfl, rfl⟩⟩
    · rw [he]
      refine ⟨fun b hb => Heap.get_put_ne h a b m (fun e => hb (by rw [hu, e])), fun hsep => ?_⟩
      exact ⟨Heap.load_put_ne h a m _ (hsep a hu).1, Heap.load_put_ne h a m _ (hsep a hu).2⟩

/-- C20, amended, at `user` `{x: 1}`, `global` `{name: alice, editor: vim}`, `override`
`{editor: ""}`, three different maps, and `config set editor emacs`. -/
theorem inputs_never_written_witness :
    (∀ a, scenarioRef.global = some a ∨ scenarioRef.override = some a →
      a < heapScenario.tables.length) ∧
    (((BuildUserRef .stored .stored .stored heapScenario scenarioRef).2.global
        = scenarioRef.global ∧
      (BuildUserRef .stored .stored .stored heapScenario scenarioRef).2.override
        = scenarioRef.override ∧
      (BuildUserRef .stored .stored .stored heapScenario scenarioRef).1.load
        scenarioRef.global = heapScenario.load scenarioRef.global ∧
      (BuildUserRef .stored .stored .stored heapScenario scenarioRef).1.load
        scenarioRef.override = heapScenario.load scenarioRef.override) ∧
    (∀ r, handleConfigCommandRef .stored heapScenario scenarioRef
        ["config", "set", "editor", "emacs"] 0 = .returned r →
      (∀ b, scenarioRef.user ≠ some b → r.heap.get b = heapScenario.get b) ∧
      ((∀ a, scenarioRef.user = some a →
          scenarioRef.global ≠ some a ∧ scenarioRef.override ≠ some a) →
        r.heap.load scenarioRef.global = heapScenario.load scenarioRef.global ∧
        r.heap.load scenarioRef.override = heapScenario.load scenarioRef.override))) ∧
    (∀ a, scenarioRef.user = some a →
      scenarioRef.global ≠ some a ∧ scenarioRef.override ≠ some a) ∧
    handleConfigCommandRef .stored heapScenario scenarioRef
        ["config", "set", "editor", "emacs"] 0
      = .returned ⟨⟨[scenarioGlobal, scenarioOverride, userX.set "editor" "emacs"]⟩, [],
          none⟩ :=
  ⟨fun a ha => by rcases ha with e | e <;> cases e <;> decide,
    inputs_never_written .stored .stored .stored .stored heapScenario scenarioRef
      ["config", "set", "editor", "emacs"] 0
      (fun a ha => by rcases ha with e | e <;> cases e <;> decide),
    fun a ha => by cases ha; exact ⟨by decide, by decide⟩,
    rfl⟩

end Sac
